import Mathlib

/-!
Verification development for the emoji-search server (`src/server.js`).

The server keeps three module-level stores (`tfidf`, `meta`, `emojis`), one entry
per submitted document, and exposes `POST /documents` and `GET /search/:query`.
Strings are modelled as lists of Unicode code points (`List Nat`); the helper
modules `./emoji` and `./utils` are not part of the provided sources, so the
functions they export (`isAscii`, `stripVariationSelectors`,
`convertEmojiToKeywords` and the emoji keyword table) are modelled from the
specification's description of the Tokenizer and query classification.

JavaScript floating-point numbers are idealised as exact rationals, represented
by an integer numerator and a positive integer denominator (`JsNum`) so that the
whole pipeline stays kernel-computable; `JsNum.toRat` maps a value to `ℚ` for
the statements of the theorems.
-/

/-- Exact-rational model of a JavaScript number: numerator, positive denominator. -/
structure JsNum where
  num : Int
  den : Int
  den_pos : 0 < den

instance : DecidableEq JsNum := fun a b =>
  decidable_of_iff (a.num = b.num ∧ a.den = b.den)
    (by
      cases a with
      | mk n d p =>
        cases b with
        | mk n2 d2 p2 =>
          constructor
          · rintro ⟨h1, h2⟩
            cases h1
            cases h2
            rfl
          · intro h
            cases h
            exact ⟨rfl, rfl⟩)

def JsNum.ofInt (n : Int) : JsNum := ⟨n, 1, one_pos⟩

def JsNum.add (a b : JsNum) : JsNum :=
  ⟨a.num * b.den + b.num * a.den, a.den * b.den, mul_pos a.den_pos b.den_pos⟩

def JsNum.mul (a b : JsNum) : JsNum :=
  ⟨a.num * b.num, a.den * b.den, mul_pos a.den_pos b.den_pos⟩

def JsNum.neg (a : JsNum) : JsNum := ⟨-a.num, a.den, a.den_pos⟩

def JsNum.sub (a b : JsNum) : JsNum := a.add b.neg

/-- Division of JavaScript numbers.  Division by a zero value (which in
JavaScript yields `Infinity` or `NaN`; such a value never reaches the
comparisons the claims are about, because real tf-idf scores are nonnegative)
is modelled as the value 0, as in `Rat` division. -/
def JsNum.div (a b : JsNum) : JsNum :=
  if h : 0 < b.num then ⟨a.num * b.den, a.den * b.num, mul_pos a.den_pos h⟩
  else if h2 : b.num < 0 then
    ⟨-(a.num * b.den), a.den * -b.num, mul_pos a.den_pos (by omega)⟩
  else JsNum.ofInt 0

/-- Value of a `JsNum` as a rational number. -/
def JsNum.toRat (a : JsNum) : ℚ := (a.num : ℚ) / (a.den : ℚ)

/-- JavaScript strict equality `===` on numbers (exact value equality). -/
def JsNum.eqJ (a b : JsNum) : Bool := decide (a.num * b.den = b.num * a.den)

/-- JavaScript `<=` on numbers. -/
def JsNum.leJ (a b : JsNum) : Bool := decide (a.num * b.den ≤ b.num * a.den)

/-- JavaScript truthiness `!!x` of a number: true iff the value is nonzero. -/
def JsNum.truthy (a : JsNum) : Bool := decide (a.num ≠ 0)

/-- Model of lodash `_.sum` over a list of numbers (accumulates from 0). -/
def sumJs (l : List JsNum) : JsNum := l.foldl JsNum.add (JsNum.ofInt 0)

/-- Modelled from the spec: `isAscii` from the missing `./utils` module.  A query
is classified plain when every code point is ASCII, emoji when some code point
is non-ASCII. -/
def isAscii (s : List Nat) : Bool := s.all fun c => decide (c < 128)

/-- Modelled from the spec: Unicode variation-selector code points
(U+FE00..U+FE0F and U+E0100..U+E01EF). -/
def isVariationSelector (c : Nat) : Bool :=
  (decide (0xFE00 ≤ c) && decide (c ≤ 0xFE0F)) ||
    (decide (0xE0100 ≤ c) && decide (c ≤ 0xE01EF))

/-- Modelled from the spec: `stripVariationSelectors` from the missing `./emoji`
module removes variation-selector code points. -/
def stripVariationSelectors (s : List Nat) : List Nat :=
  s.filter fun c => !isVariationSelector c

/-- Keyword tokens are modelled as code-point lists (single lowercase words). -/
abbrev Token := List Nat

/-- Modelled from the spec: `convertEmojiToKeywords` from the missing `./emoji`
module maps each emoji code point to its keywords through a fixed table `lib`;
emoji not found in the table are dropped (the table returns `[]`). -/
def convertEmojiToKeywords (lib : Nat → List Token) (s : List Nat) : List Token :=
  (s.map lib).flatten

def isAlphaNumCode (c : Nat) : Bool :=
  (decide (48 ≤ c) && decide (c ≤ 57)) || (decide (65 ≤ c) && decide (c ≤ 90)) ||
    (decide (97 ≤ c) && decide (c ≤ 122))

def jsToLowerCode (c : Nat) : Nat := if 65 ≤ c ∧ c ≤ 90 then c + 32 else c

def wordRunsStep (c : Nat) (acc : List (List Nat) × List Nat) :
    List (List Nat) × List Nat :=
  if isAlphaNumCode c then (acc.1, c :: acc.2)
  else if acc.2.isEmpty then acc else (acc.2 :: acc.1, [])

/-- Model of the `natural` library's word tokenizer applied to a lowercased
string: maximal alphanumeric runs. -/
def tokenizeWords (s : List Nat) : List Token :=
  let p := (s.map jsToLowerCode).foldr wordRunsStep ([], [])
  if p.2.isEmpty then p.1 else p.2 :: p.1

/-- Model of lodash `_.includes(haystack, needle)` on strings: substring test. -/
def jsIncludes (hay sub : List Nat) : Bool :=
  (List.range (hay.length + 1)).any fun i => sub.isPrefixOf (hay.drop i)

/-- Model of lodash `_.union([s], m)`: `s` followed by the members of `m`
other than `s` (first occurrences kept). -/
def jsUnionSingle (s : List Nat) (m : List (List Nat)) : List (List Nat) :=
  s :: m.filter fun x => decide (x ≠ s)

/-- Stable insertion of `x` into an ascending list: `x` is placed after every
element `y` with `le y x`. -/
def insertAsc {α : Type} (le : α → α → Bool) (x : α) : List α → List α
  | [] => [x]
  | y :: ys => if le y x then y :: insertAsc le x ys else x :: y :: ys

/-- Model of lodash `_.sortBy`: a stable ascending sort (insertion sort). -/
def sortByAsc {α : Type} (le : α → α → Bool) (l : List α) : List α :=
  l.foldl (fun acc x => insertAsc le x acc) []

/-- Model of lodash `_.max` on a list of naturals (`undefined` on `[]`). -/
def jsMaxNat : List Nat → Option Nat
  | [] => none
  | x :: xs => some (xs.foldl max x)

def maxJs (a b : JsNum) : JsNum := if a.leJ b then b else a

/-- Model of lodash `_.max` on a list of numbers (`undefined` on `[]`). -/
def jsMaxJs : List JsNum → Option JsNum
  | [] => none
  | x :: xs => some (xs.foldl maxJs x)

/-- Geographic point with numeric coordinates (as passed to `geolib`). -/
structure GeoPoint where
  latitude : JsNum
  longitude : JsNum
deriving DecidableEq

/-- Parsed `geolocation` object of a document's metadata.  `hasExtra` records
the presence of properties other than `latitude`/`longitude` (rejected by the
schema via `additionalProperties: false`). -/
structure GeoObj where
  latitude : Option JsNum
  longitude : Option JsNum
  hasExtra : Bool
deriving DecidableEq

/-- The `geolocation` property of a metadata object: missing, `null`, or an
object. -/
inductive GeoField where
  | absent : GeoField
  | null : GeoField
  | val : GeoObj → GeoField
deriving DecidableEq

/-- The `meta` value of a document: missing, `null`, or an object carrying the
optional `geolocation` property (other metadata properties are unconstrained
by the schema and do not influence any behaviour modelled here). -/
inductive MetaField where
  | absent : MetaField
  | null : MetaField
  | obj : GeoField → MetaField
deriving DecidableEq

/-- Parsed `geofence` query parameter: the fields of the JSON object, plus
`hasExtra` for properties outside the two schema shapes. -/
structure GeofenceObj where
  latitude : Option JsNum
  longitude : Option JsNum
  radius : Option JsNum
  latitudeDelta : Option JsNum
  longitudeDelta : Option JsNum
  hasExtra : Bool
deriving DecidableEq

/-- One stored document: the uuid key, the emoji string, the stored `meta`
value, and the keyword-token document recorded in the tf-idf index by
`tfidf.addDocument` at insertion time. -/
structure StoredDoc where
  key : Nat
  emoji : List Nat
  meta : MetaField
  terms : List Token
deriving DecidableEq

/-- The module-level state `tfidf` / `meta` / `emojis`, in insertion order. -/
structure ServerState where
  docs : List StoredDoc
deriving DecidableEq

/-- External collaborators: `Math.log` (inside the `natural` library's idf) and
the two `geolib` point tests.  They are kept abstract; theorems hold for every
interpretation, and concrete instances fix them pointwise. -/
structure ExtFns where
  jsLog : JsNum → JsNum
  pointInside : GeoField → List GeoPoint → Bool
  pointInCircle : GeoField → GeofenceObj → Option JsNum → Bool

/-- Request body of `POST /documents` (`emoji` may be missing; `meta` is
missing, `null`, or an object). -/
structure DocumentBody where
  emoji : Option (List Nat)
  meta : MetaField
deriving DecidableEq

/-- Model of the Ajv validator compiled from `documentPostSchema`: `emoji` is
required (a string); `meta`, when an object, may carry `geolocation` which must
be `null` or an object with exactly `latitude` and `longitude` (numbers). -/
def documentPostValidate (b : DocumentBody) : Bool :=
  b.emoji.isSome &&
    (match b.meta with
      | MetaField.absent => true
      | MetaField.null => true
      | MetaField.obj g =>
        match g with
        | GeoField.absent => true
        | GeoField.null => true
        | GeoField.val go => go.latitude.isSome && go.longitude.isSome && !go.hasExtra)

/-- Handler of `POST /documents`: validate, then append the document under a
fresh uuid `key`, recording the keyword tokens in the tf-idf index.  Returns
the new state and the HTTP status (400 on validation failure, 201 on success). -/
def postDocuments (lib : Nat → List Token) (st : ServerState) (b : DocumentBody)
    (key : Nat) : ServerState × Nat :=
  if documentPostValidate b then
    (⟨st.docs ++ [⟨key, b.emoji.getD [], b.meta,
        convertEmojiToKeywords lib (b.emoji.getD [])⟩]⟩, 201)
  else (st, 400)

/-- Term frequency: number of occurrences of token `t` in a stored document. -/
def tfCount (terms : List Token) (t : Token) : Nat := terms.count t

/-- Number of stored documents containing token `t`. -/
def docsWithTerm (docs : List StoredDoc) (t : Token) : Nat :=
  (docs.filter fun d => d.terms.contains t).length

/-- Inverse document frequency as computed by the `natural` library:
`1 + Math.log(N / (1 + docsWithTerm))`. -/
def idf (ext : ExtFns) (docs : List StoredDoc) (t : Token) : JsNum :=
  (JsNum.ofInt 1).add
    (ext.jsLog ((JsNum.ofInt docs.length).div
      ((JsNum.ofInt 1).add (JsNum.ofInt (docsWithTerm docs t)))))

/-- Raw tf-idf score of one document for the query tokens (the `measure`
delivered by `tfidf.tfidfs`). -/
def rawMeasure (ext : ExtFns) (docs : List StoredDoc) (qts : List Token)
    (d : StoredDoc) : JsNum :=
  sumJs (qts.map fun t => (JsNum.ofInt (tfCount d.terms t)).mul (idf ext docs t))

/-- Tokens used for scoring: the raw query (library-tokenized) when it is
ASCII, otherwise its emoji keywords. -/
def queryTerms (lib : Nat → List Token) (q : List Nat) : List Token :=
  if isAscii q then tokenizeWords q else convertEmojiToKeywords lib q

/-- The accumulated `measure1Sum` over all stored documents. -/
def measure1Sum (ext : ExtFns) (docs : List StoredDoc) (qts : List Token) : JsNum :=
  sumJs (docs.map (rawMeasure ext docs qts))

/-- One entry of the `result` collection: stored meta, emoji, and the measures.
`measure2` and `matches` are absent (`none` / `[]`) until the n-gram block
runs. -/
structure SearchEntry where
  meta : MetaField
  emoji : List Nat
  measure1 : JsNum
  measure2 : Option JsNum
  matchList : List (List Nat)
deriving DecidableEq

/-- An entry extended with the combined `measure` field. -/
structure RankedEntry where
  meta : MetaField
  emoji : List Nat
  measure1 : JsNum
  measure2 : Option JsNum
  matchList : List (List Nat)
  measure : JsNum
deriving DecidableEq

/-- Lines 158-164: `tfidf.tfidfs` visits every stored document in insertion
order (keyed by its unique uuid, so the `result` object is the list of entries
in insertion order), then each raw measure is divided by `measure1Sum`. -/
def scoredStage (ext : ExtFns) (lib : Nat → List Token) (st : ServerState)
    (q : List Nat) : List SearchEntry :=
  st.docs.map fun d =>
    ⟨d.meta, d.emoji,
      (rawMeasure ext st.docs (queryTerms lib q) d).div
        (measure1Sum ext st.docs (queryTerms lib q)),
      none, []⟩

/-- Combining marks of lodash's `rsComboRange` (U+0300..036F, U+FE20..FE2F,
U+20D0..20FF). -/
def isComboMark (c : Nat) : Bool :=
  (decide (0x300 ≤ c) && decide (c ≤ 0x36F)) ||
    (decide (0xFE20 ≤ c) && decide (c ≤ 0xFE2F)) ||
    (decide (0x20D0 ≤ c) && decide (c ≤ 0x20FF))

/-- The two variation selectors of lodash's `rsVarRange` (U+FE0E, U+FE0F). -/
def isVariationUnit (c : Nat) : Bool := decide (c = 0xFE0E) || decide (c = 0xFE0F)

/-- Fitzpatrick skin-tone modifiers, lodash's `rsFitz` (U+1F3FB..1F3FF). -/
def isFitzMod (c : Nat) : Bool := decide (0x1F3FB ≤ c) && decide (c ≤ 0x1F3FF)

/-- Regional-indicator code points, lodash's `rsRegional` components. -/
def isRegionalInd (c : Nat) : Bool := decide (0x1F1E6 ≤ c) && decide (c ≤ 0x1F1FF)

def isZeroWidthJoiner (c : Nat) : Bool := decide (c = 0x200D)

/-- Code points outside the Basic Multilingual Plane (encoded as surrogate
pairs, lodash's `rsAstralRange` / `rsSurrPair`). -/
def isAstralCp (c : Nat) : Bool := decide (0x10000 ≤ c)

/-- Model of lodash's `hasUnicode`: the string contains a zero-width joiner,
an astral (surrogate-encoded) code point, a combining mark, or a variation
selector. -/
def hasUnicodeStr (s : List Nat) : Bool :=
  s.any fun c => isZeroWidthJoiner c || isAstralCp c || isComboMark c || isVariationUnit c

/-- The base of a Unicode symbol, lodash's `rsSymbol`: a non-astral code point
with an optional combining mark, a regional-indicator pair, or a single astral
code point. -/
def takeBase : List Nat → List Nat × List Nat
  | [] => ([], [])
  | c :: rest =>
    if isAstralCp c then
      if isRegionalInd c then
        match rest with
        | c2 :: r2 => if isRegionalInd c2 then ([c, c2], r2) else ([c], rest)
        | [] => ([c], [])
      else ([c], rest)
    else
      match rest with
      | c2 :: r2 => if isComboMark c2 then ([c, c2], r2) else ([c], rest)
      | [] => ([c], rest)

/-- The base inside a ZWJ join group, lodash's `rsOptJoin` alternatives
(non-astral, regional pair, or astral; no combining-mark suffix here). -/
def takeJoinBase : List Nat → List Nat × List Nat
  | [] => ([], [])
  | c :: rest =>
    if isAstralCp c then
      if isRegionalInd c then
        match rest with
        | c2 :: r2 => if isRegionalInd c2 then ([c, c2], r2) else ([c], rest)
        | [] => ([c], [])
      else ([c], rest)
    else ([c], rest)

/-- Optional variation selector after a base, lodash's `rsOptVar`. -/
def takeOptVar : List Nat → List Nat × List Nat
  | [] => ([], [])
  | c :: rest => if isVariationUnit c then ([c], rest) else ([], c :: rest)

/-- Optional modifier after a base, lodash's `reOptMod` (combining mark or
fitzpatrick modifier). -/
def takeOptMod : List Nat → List Nat × List Nat
  | [] => ([], [])
  | c :: rest => if isComboMark c || isFitzMod c then ([c], rest) else ([], c :: rest)

/-- Zero or more ZWJ join groups, lodash's `rsOptJoin`: each group is a
zero-width joiner followed by a base with its optional variation selector and
modifier.  The fuel bounds the number of groups (one group consumes at least
two code points, so the input length is always enough fuel). -/
def takeJoins : Nat → List Nat → List Nat × List Nat
  | 0, s => ([], s)
  | _ + 1, [] => ([], [])
  | f + 1, c :: rest =>
    if isZeroWidthJoiner c then
      match rest with
      | [] => ([], c :: rest)
      | _ :: _ =>
        (c :: ((takeJoinBase rest).1 ++
          (takeOptVar (takeJoinBase rest).2).1 ++
          (takeOptMod (takeOptVar (takeJoinBase rest).2).2).1 ++
          (takeJoins f (takeOptMod (takeOptVar (takeJoinBase rest).2).2).2).1),
          (takeJoins f (takeOptMod (takeOptVar (takeJoinBase rest).2).2).2).2)
    else ([], c :: rest)

def headIsFitz : List Nat → Bool
  | c :: _ => isFitzMod c
  | [] => false

/-- One match of lodash's `reUnicode`: either a fitzpatrick modifier directly
followed by another one, or a symbol base followed by `rsSeq` (optional
variation selector, optional modifier, ZWJ join groups). -/
def takeSymbol : List Nat → List Nat × List Nat
  | [] => ([], [])
  | c :: rest =>
    if isFitzMod c && headIsFitz rest then ([c], rest)
    else
      ((takeBase (c :: rest)).1 ++
        (takeOptVar (takeBase (c :: rest)).2).1 ++
        (takeOptMod (takeOptVar (takeBase (c :: rest)).2).2).1 ++
        (takeJoins (takeOptMod (takeOptVar (takeBase (c :: rest)).2).2).2.length
          (takeOptMod (takeOptVar (takeBase (c :: rest)).2).2).2).1,
        (takeJoins (takeOptMod (takeOptVar (takeBase (c :: rest)).2).2).2.length
          (takeOptMod (takeOptVar (takeBase (c :: rest)).2).2).2).2)

/-- Repeated `reUnicode` matching; the fuel (instantiated with the input
length, each symbol consumes at least one code point) bounds the number of
symbols. -/
def splitSymbols : Nat → List Nat → List (List Nat)
  | _, [] => []
  | 0, c :: rest => [c :: rest]
  | f + 1, c :: rest =>
    (takeSymbol (c :: rest)).1 :: splitSymbols f (takeSymbol (c :: rest)).2

/-- Model of lodash's `stringToArray` on a string with unicode markers: the
list of Unicode symbols matched by `reUnicode`. -/
def stringToArray (s : List Nat) : List (List Nat) := splitSymbols s.length s

/-- Line 168: `_.split(query, '')`.  With an empty separator lodash splits a
string containing unicode markers into Unicode symbols (variation selectors,
combining marks, fitzpatrick modifiers and ZWJ sequences attach to the
preceding base); otherwise it falls back to the native per-character split. -/
def querySplitted (q : List Nat) : List (List Nat) :=
  if hasUnicodeStr q then stringToArray q else q.map fun c => [c]

/-- Model of lodash `_.size` on a string: the number of Unicode symbols when
the string has unicode markers, else its length. -/
def jsSize (s : List Nat) : Nat :=
  if hasUnicodeStr s then (stringToArray s).length else s.length

/-- JavaScript `string.length` of a code-point list: UTF-16 code units (astral
code points count twice). -/
def jsCodeUnitLength (s : List Nat) : Nat :=
  (s.map fun c => if 0x10000 ≤ c then 2 else 1).sum

/-- A plain astral symbol character: an astral code point that is neither a
regional indicator nor a fitzpatrick modifier, so lodash's unicode-aware split
makes it a one-character symbol wherever it occurs. -/
def isPlainSymbolChar (c : Nat) : Bool :=
  isAstralCp c && !isRegionalInd c && !isFitzMod c

/-- Lines 170-174: all contiguous runs of the split symbol list, each joined
back into one string. -/
def sliceSubsets (qs : List (List Nat)) : List (List Nat) :=
  ((List.range qs.length).map fun start =>
    (List.range (qs.length - start)).map fun off =>
      ((qs.drop start).take (off + 1)).flatten).flatten

/-- Line 175: `sortBy('length')` compares the JavaScript string length. -/
def lengthLE (a b : List Nat) : Bool :=
  decide (jsCodeUnitLength a ≤ jsCodeUnitLength b)

/-- Lines 169-177: the subset list; with `persistOrder` the contiguous runs of
the split query sorted by ascending string length, otherwise the split query's
symbols themselves. -/
def subsetsOf (q : List Nat) (persistOrder : Bool) : List (List Nat) :=
  if persistOrder then sortByAsc lengthLE (sliceSubsets (querySplitted q))
  else querySplitted q

/-- Line 178: sum of the `_.size`s of all subsets. -/
def subsetLengthSum (subs : List (List Nat)) : JsNum :=
  sumJs (subs.map fun s => JsNum.ofInt (jsSize s))

/-- One iteration of lines 181-189: when the subset's canonical characters
occur in the target, its `_.size` is added and it is unioned into the
matches. -/
def scanStep (target : List Nat) (acc : JsNum × List (List Nat))
    (s : List Nat) : JsNum × List (List Nat) :=
  if jsIncludes target (stripVariationSelectors s) then
    (acc.1.add (JsNum.ofInt (jsSize s)), jsUnionSingle s acc.2)
  else acc

/-- Lines 180-192: fold over all subsets, accumulating the match total and the
deduplicated match list. -/
def scanSubsets (target : List Nat) (subs : List (List Nat)) :
    JsNum × List (List Nat) :=
  subs.foldl (scanStep target) (JsNum.ofInt 0, [])

/-- Lines 179-193 for one entry: `measure2 = matchTotal / subsetLengthSum` and
the match list, computed against the entry's variation-selector-stripped
emoji string. -/
def annotateEntry (subs : List (List Nat)) (lenSum : JsNum) (e : SearchEntry) :
    SearchEntry :=
  ⟨e.meta, e.emoji, e.measure1,
    some ((scanSubsets (stripVariationSelectors e.emoji) subs).1.div lenSum),
    (scanSubsets (stripVariationSelectors e.emoji) subs).2⟩

/-- Lines 166-194: the n-gram block runs only for non-ASCII queries. -/
def ngramStage (ext : ExtFns) (lib : Nat → List Token) (st : ServerState)
    (q : List Nat) (persistOrder : Bool) : List SearchEntry :=
  if isAscii q then scoredStage ext lib st q
  else
    (scoredStage ext lib st q).map
      (annotateEntry (subsetsOf q persistOrder)
        (subsetLengthSum (subsetsOf q persistOrder)))

/-- Model of `_.has(item, 'meta.geolocation')`. -/
def hasMetaGeolocation (m : MetaField) : Bool :=
  match m with
  | MetaField.obj GeoField.absent => false
  | MetaField.obj _ => true
  | _ => false

/-- The `item.meta.geolocation` value handed to `geolib`. -/
def geolocationOf (m : MetaField) : GeoField :=
  match m with
  | MetaField.obj g => g
  | _ => GeoField.absent

/-- Lines 197-202: the four corners of the bounding box, center ± deltas. -/
def boxCorners (g : GeofenceObj) : List GeoPoint :=
  [⟨(g.latitude.getD (JsNum.ofInt 0)).sub (g.latitudeDelta.getD (JsNum.ofInt 0)),
      (g.longitude.getD (JsNum.ofInt 0)).sub (g.longitudeDelta.getD (JsNum.ofInt 0))⟩,
    ⟨(g.latitude.getD (JsNum.ofInt 0)).add (g.latitudeDelta.getD (JsNum.ofInt 0)),
      (g.longitude.getD (JsNum.ofInt 0)).sub (g.longitudeDelta.getD (JsNum.ofInt 0))⟩,
    ⟨(g.latitude.getD (JsNum.ofInt 0)).add (g.latitudeDelta.getD (JsNum.ofInt 0)),
      (g.longitude.getD (JsNum.ofInt 0)).add (g.longitudeDelta.getD (JsNum.ofInt 0))⟩,
    ⟨(g.latitude.getD (JsNum.ofInt 0)).sub (g.latitudeDelta.getD (JsNum.ofInt 0)),
      (g.longitude.getD (JsNum.ofInt 0)).add (g.longitudeDelta.getD (JsNum.ofInt 0))⟩]

/-- Lines 196-203: the bounding-box filter; active only when a geofence without
`radius` is supplied, and a document without `meta.geolocation` always passes. -/
def filterIsPointInside (ext : ExtFns) (gf : Option GeofenceObj) (e : SearchEntry) :
    Bool :=
  match gf with
  | none => true
  | some g =>
    if g.radius.isSome then true
    else !hasMetaGeolocation e.meta || ext.pointInside (geolocationOf e.meta) (boxCorners g)

/-- Lines 204-206: the circular filter; active only when a geofence with
`radius` is supplied, and a document without `meta.geolocation` always passes. -/
def filterIsPointInCircle (ext : ExtFns) (gf : Option GeofenceObj) (e : SearchEntry) :
    Bool :=
  match gf with
  | none => true
  | some g =>
    if g.radius.isSome then
      !hasMetaGeolocation e.meta || ext.pointInCircle (geolocationOf e.meta) g g.radius
    else true

/-- Lines 208-211: both geo filters applied to the result list. -/
def geoStage (ext : ExtFns) (gf : Option GeofenceObj) (l : List SearchEntry) :
    List SearchEntry :=
  (l.filter (filterIsPointInside ext gf)).filter (filterIsPointInCircle ext gf)

/-- Line 213: without fuzzy search every `measure1` is overwritten with 0. -/
def fuzzyZeroStage (fuzzy : Bool) (l : List SearchEntry) : List SearchEntry :=
  if fuzzy then l else l.map fun e => ⟨e.meta, e.emoji, JsNum.ofInt 0, e.measure2, e.matchList⟩

/-- Model of `x || 0` applied to the possibly-absent `measure2`. -/
def jsOr0 (m : Option JsNum) : JsNum :=
  match m with
  | none => JsNum.ofInt 0
  | some x => x

/-- Line 216: extend an entry with `measure = (measure1 || 0) + (measure2 || 0)`. -/
def toRanked (e : SearchEntry) : RankedEntry :=
  ⟨e.meta, e.emoji, e.measure1, e.measure2, e.matchList, e.measure1.add (jsOr0 e.measure2)⟩

/-- Lines 215-218: add the combined measure and drop falsy (zero) measures. -/
def combinedStage (l : List SearchEntry) : List RankedEntry :=
  (l.map toRanked).filter fun o => o.measure.truthy

/-- Line 220: the maximum match-list size across the current result set. -/
def maxMatchesLength (l : List RankedEntry) : Option Nat :=
  jsMaxNat (l.map fun o => o.matchList.length)

/-- Line 223: the maximum combined measure across the current result set. -/
def maxMeasure (l : List RankedEntry) : Option JsNum :=
  jsMaxJs (l.map fun o => o.measure)

/-- Line 226: `onlyKeepPerfectMatch` keeps entries with `measure2 === 1`
(false for an absent `measure2`). -/
def filterPerfectMatch (flag : Bool) (o : RankedEntry) : Bool :=
  if flag then
    match o.measure2 with
    | none => false
    | some m => m.eqJ (JsNum.ofInt 1)
  else true

/-- Line 221: `truncateSmallMatches` keeps entries whose match-list size equals
the maximum over the current result set. -/
def filterSmallMatch (flag : Bool) (l : List RankedEntry) (o : RankedEntry) : Bool :=
  if flag then decide (some o.matchList.length = maxMatchesLength l) else true

/-- Line 224: `truncateSmallScore` keeps entries whose combined measure equals
the maximum over the current result set. -/
def filterSmallScore (flag : Bool) (l : List RankedEntry) (o : RankedEntry) : Bool :=
  if flag then
    match maxMeasure l with
    | none => false
    | some m => o.measure.eqJ m
  else true

/-- Search options after `_.defaults` (line 148-156). -/
structure SearchOpts where
  limit : JsNum
  geofence : Option GeofenceObj
  enableFuzzySearch : Bool
  persistOrder : Bool
  onlyKeepPerfectMatch : Bool
  truncateSmallMatches : Bool
  truncateSmallScore : Bool

def defaultSearchOpts : SearchOpts :=
  ⟨JsNum.ofInt 50, none, false, false, true, true, false⟩

/-- Lines 228-231: the three filters applied in sequence, each gated by its own
flag, with both maxima taken over the unfiltered list. -/
def policyStage (opts : SearchOpts) (l : List RankedEntry) : List RankedEntry :=
  ((l.filter (filterPerfectMatch opts.onlyKeepPerfectMatch)).filter
      (filterSmallMatch opts.truncateSmallMatches l)).filter
    (filterSmallScore opts.truncateSmallScore l)

def measureLE (a b : RankedEntry) : Bool := a.measure.leJ b.measure

/-- Model of `_.take(list, limit)`: lodash truncates `limit` toward zero and
clamps negatives to 0. -/
def jsTake (limit : JsNum) (l : List RankedEntry) : List RankedEntry :=
  l.take (limit.num.tdiv limit.den).toNat

/-- Lines 136-237, the whole search pipeline for an already-validated request:
score, n-gram, geo filter, fuzzy zeroing, combination, policy filters,
`sortBy('measure').reverse()`, truncation to `limit`. -/
def runSearch (ext : ExtFns) (lib : Nat → List Token) (st : ServerState)
    (q : List Nat) (opts : SearchOpts) : List RankedEntry :=
  jsTake opts.limit
    (sortByAsc measureLE
      (policyStage opts
        (combinedStage
          (fuzzyZeroStage opts.enableFuzzySearch
            (geoStage ext opts.geofence
              (ngramStage ext lib st q opts.persistOrder)))))).reverse

/-- Query parameters of `GET /search/:query`, already parsed into typed fields
(the spec assigns wire-level parsing to the transport collaborator). -/
structure SearchParams where
  limit : Option JsNum
  geofence : Option GeofenceObj
  enableFuzzySearch : Option Bool
  persistOrder : Option Bool
  onlyKeepPerfectMatch : Option Bool
  truncateSmallMatches : Option Bool
  truncateSmallScore : Option Bool

/-- Model of the Ajv `oneOf` for the geofence: exactly the circular shape
(`latitude`, `longitude`, `radius`) or exactly the bounding-box shape
(`latitude`, `longitude`, `latitudeDelta`, `longitudeDelta`), no extra
properties. -/
def validGeofence (g : GeofenceObj) : Bool :=
  (g.latitude.isSome && g.longitude.isSome && g.radius.isSome &&
      g.latitudeDelta.isNone && g.longitudeDelta.isNone && !g.hasExtra) ||
    (g.latitude.isSome && g.longitude.isSome && g.latitudeDelta.isSome &&
      g.longitudeDelta.isSome && g.radius.isNone && !g.hasExtra)

/-- Model of the Ajv validator compiled from `searchSchema`: `limit` must be a
number (always true for a typed field; the schema imposes no minimum) and
`geofence`, when present, must match one of the two shapes. -/
def searchValidate (p : SearchParams) : Bool :=
  match p.geofence with
  | none => true
  | some g => validGeofence g

/-- Lines 144-156: `_.defaults` fills every missing option. -/
def optsOfParams (p : SearchParams) : SearchOpts :=
  ⟨p.limit.getD (JsNum.ofInt 50), p.geofence, p.enableFuzzySearch.getD false,
    p.persistOrder.getD false, p.onlyKeepPerfectMatch.getD true,
    p.truncateSmallMatches.getD true, p.truncateSmallScore.getD false⟩

/-- Outcome of `GET /search/:query`: a 400 validation error or the result list. -/
inductive SearchResult where
  | badRequest : SearchResult
  | ok : List RankedEntry → SearchResult
deriving DecidableEq

/-- Handler of `GET /search/:query`: validate the parameters, then run the
search; scoring happens only in the `ok` branch. -/
def getSearch (ext : ExtFns) (lib : Nat → List Token) (st : ServerState)
    (p : SearchParams) (q : List Nat) : SearchResult :=
  if searchValidate p then SearchResult.ok (runSearch ext lib st q (optsOfParams p))
  else SearchResult.badRequest

/-- A concrete interpretation of the external collaborators, agreeing with
`Math.log` at 1 (`Math.log(1) = 0`, the only point at which any concrete
computation below evaluates it). -/
def extDefault : ExtFns :=
  ⟨fun _ => JsNum.ofInt 0, fun _ _ => true, fun _ _ _ => true⟩

/-- A concrete emoji keyword table: U+1F600 and U+1F601 share one keyword,
U+1F31F and U+1F381 have their own. -/
def libA (c : Nat) : List Token :=
  if c = 128512 ∨ c = 128513 then [[115]]
  else if c = 127775 then [[116]]
  else if c = 127873 then [[103]]
  else []

/-- The entry built for one stored document by lines 158-164. -/
def scoredEntryOf (ext : ExtFns) (lib : Nat → List Token) (st : ServerState)
    (q : List Nat) (d : StoredDoc) : SearchEntry :=
  ⟨d.meta, d.emoji,
    (rawMeasure ext st.docs (queryTerms lib q) d).div
      (measure1Sum ext st.docs (queryTerms lib q)),
    none, []⟩

/-- The result list right before the policy filters (lines 215-218): scored,
n-gram-annotated, geo-filtered, fuzzy-zeroed and combined.  `runSearch` is by
definition the policy filters, sort, reverse and truncation applied to it. -/
def pipelineCombined (ext : ExtFns) (lib : Nat → List Token) (st : ServerState)
    (q : List Nat) (opts : SearchOpts) : List RankedEntry :=
  combinedStage
    (fuzzyZeroStage opts.enableFuzzySearch
      (geoStage ext opts.geofence (ngramStage ext lib st q opts.persistOrder)))

/-- Metadata object with a geolocation at latitude `i`, longitude 0. -/
def metaLat (i : Int) : MetaField :=
  MetaField.obj (GeoField.val ⟨some (JsNum.ofInt i), some (JsNum.ofInt 0), false⟩)

/-- Fifty-one documents, each with the single emoji U+1F600, distinguished by
their metadata latitude. -/
def st51 : ServerState :=
  ⟨(List.range 51).map fun i => ⟨i, [128512], metaLat i, [[115]]⟩⟩

/-- One document with the single emoji U+1F600. -/
def stOne : ServerState := ⟨[⟨0, [128512], MetaField.null, [[115]]⟩]⟩

/-- Three documents: U+1F600 twice (two tokens), U+1F600 once, U+1F381 once. -/
def stC2 : ServerState :=
  ⟨[⟨0, [128512, 128512], MetaField.null, [[115], [115]]⟩,
    ⟨1, [128512], MetaField.null, [[115]]⟩,
    ⟨2, [127873], MetaField.null, [[103]]⟩]⟩

/-- Three documents: U+1F601, U+1F600 and U+1F31F; the first two share the
keyword token of the query emoji. -/
def stC5 : ServerState :=
  ⟨[⟨0, [128513], MetaField.null, [[115]]⟩,
    ⟨1, [128512], MetaField.null, [[115]]⟩,
    ⟨2, [127775], MetaField.null, [[116]]⟩]⟩

/-- Two identical-emoji documents with distinguishable metadata. -/
def stC3 : ServerState :=
  ⟨[⟨0, [128512], MetaField.null, [[115]]⟩,
    ⟨1, [128512], MetaField.obj GeoField.absent, [[115]]⟩]⟩

/-- Default options with fuzzy search enabled. -/
def optsFuzzy : SearchOpts := ⟨JsNum.ofInt 50, none, true, false, true, true, false⟩

/-- Default options with fuzzy search and `truncateSmallScore` enabled. -/
def optsFuzzyTss : SearchOpts := ⟨JsNum.ofInt 50, none, true, false, true, true, true⟩

/-- Default options with both truncation flags flipped. -/
def optsFlagsFlipped : SearchOpts :=
  ⟨JsNum.ofInt 50, none, false, false, true, false, true⟩

/-- The entry the scoring stage produces for the document of `stOne` on an
empty query (both raw score and score sum are zero). -/
def entryEmptyQuery : SearchEntry := ⟨MetaField.null, [128512], JsNum.ofInt 0, none, []⟩

/-- A parsed geofence object matching neither schema shape (no radius and no
deltas). -/
def badFence : GeofenceObj :=
  ⟨some (JsNum.ofInt 1), some (JsNum.ofInt 1), none, none, none, false⟩

/-- A well-shaped bounding-box geofence. -/
def fenceBox : GeofenceObj :=
  ⟨some (JsNum.ofInt 0), some (JsNum.ofInt 0), none, some (JsNum.ofInt 1),
    some (JsNum.ofInt 1), false⟩

/-- Search parameters carrying only a negative limit. -/
def paramsNegLimit : SearchParams :=
  ⟨some (JsNum.ofInt (-1)), none, none, none, none, none, none⟩

/-- Search parameters carrying only a malformed geofence. -/
def paramsBadFence : SearchParams :=
  ⟨none, some badFence, none, none, none, none, none⟩

/-- A document body with a geolocation that is missing `longitude`. -/
def bodyBadGeo : DocumentBody :=
  ⟨some [128512],
    MetaField.obj (GeoField.val ⟨some (JsNum.ofInt 1), none, false⟩)⟩

/-- A result entry whose metadata has no `geolocation` property. -/
def entryNoGeo : SearchEntry := ⟨MetaField.null, [], JsNum.ofInt 0, none, []⟩

/-- External collaborators whose point tests reject every point, isolating the
missing-geolocation bypass. -/
def extReject : ExtFns :=
  ⟨fun _ => JsNum.ofInt 0, fun _ _ => false, fun _ _ _ => false⟩

/-- Modelled from the claim's words, for comparison with `subsetsOf`: the set
(deduplicated list) of individual characters of the query's canonical
(variation-selector-stripped) character sequence. -/
def canonicalCharSubsets (q : List Nat) : List (List Nat) :=
  (stripVariationSelectors q).dedup.map fun c => [c]


/-! Bridge lemmas from `JsNum` to its rational value. -/

theorem JsNum.den_ne_zero_q (a : JsNum) : (a.den : ℚ) ≠ 0 := by
  have h := a.den_pos
  exact_mod_cast h.ne'

theorem JsNum.toRat_ofInt (n : Int) : (JsNum.ofInt n).toRat = (n : ℚ) := by
  simp [JsNum.ofInt, JsNum.toRat]

theorem JsNum.toRat_add (a b : JsNum) : (a.add b).toRat = a.toRat + b.toRat := by
  have ha := a.den_ne_zero_q
  have hb := b.den_ne_zero_q
  unfold JsNum.add JsNum.toRat
  push_cast
  field_simp

theorem JsNum.toRat_mul (a b : JsNum) : (a.mul b).toRat = a.toRat * b.toRat := by
  have ha := a.den_ne_zero_q
  have hb := b.den_ne_zero_q
  unfold JsNum.mul JsNum.toRat
  push_cast
  field_simp

theorem JsNum.toRat_div (a b : JsNum) (h : b.num ≠ 0) :
    (a.div b).toRat = a.toRat / b.toRat := by
  have ha := a.den_ne_zero_q
  have hb := b.den_ne_zero_q
  unfold JsNum.div
  rcases lt_trichotomy b.num 0 with hneg | hz | hpos
  · rw [dif_neg (by omega), dif_pos hneg]
    unfold JsNum.toRat
    have hbn : ((b.num : ℚ)) ≠ 0 := by exact_mod_cast h
    push_cast
    field_simp
  · exact absurd hz h
  · rw [dif_pos hpos]
    unfold JsNum.toRat
    have hbn : ((b.num : ℚ)) ≠ 0 := by exact_mod_cast h
    push_cast
    field_simp

theorem JsNum.toRat_div_zero (a b : JsNum) (h : b.num = 0) :
    (a.div b).toRat = 0 := by
  unfold JsNum.div
  rw [dif_neg (by omega), dif_neg (by omega)]
  simp [JsNum.ofInt, JsNum.toRat]

theorem JsNum.num_eq_zero_iff (a : JsNum) : a.num = 0 ↔ a.toRat = 0 := by
  unfold JsNum.toRat
  rw [div_eq_zero_iff]
  have := a.den_ne_zero_q
  constructor
  · intro h
    exact Or.inl (by exact_mod_cast h)
  · rintro (h | h)
    · exact_mod_cast h
    · exact absurd h this

theorem JsNum.eqJ_iff (a b : JsNum) : a.eqJ b = true ↔ a.toRat = b.toRat := by
  unfold JsNum.eqJ JsNum.toRat
  rw [decide_eq_true_iff]
  rw [div_eq_div_iff a.den_ne_zero_q b.den_ne_zero_q]
  constructor
  · intro h
    exact_mod_cast h
  · intro h
    exact_mod_cast h

theorem JsNum.leJ_iff (a b : JsNum) : a.leJ b = true ↔ a.toRat ≤ b.toRat := by
  unfold JsNum.leJ JsNum.toRat
  rw [decide_eq_true_iff]
  have ha : (0 : ℚ) < (a.den : ℚ) := by exact_mod_cast a.den_pos
  have hb : (0 : ℚ) < (b.den : ℚ) := by exact_mod_cast b.den_pos
  rw [div_le_div_iff₀ ha hb]
  constructor
  · intro h
    exact_mod_cast h
  · intro h
    exact_mod_cast h

theorem JsNum.truthy_iff (a : JsNum) : a.truthy = true ↔ a.toRat ≠ 0 := by
  unfold JsNum.truthy
  rw [decide_eq_true_iff]
  exact not_congr a.num_eq_zero_iff

theorem sumJs_from (l : List JsNum) (acc : JsNum) :
    (l.foldl JsNum.add acc).toRat = acc.toRat + (l.map JsNum.toRat).sum := by
  induction l generalizing acc with
  | nil => simp
  | cons x xs ih =>
    simp only [List.foldl_cons, List.map_cons, List.sum_cons]
    rw [ih, JsNum.toRat_add]
    ring

theorem sumJs_toRat (l : List JsNum) : (sumJs l).toRat = (l.map JsNum.toRat).sum := by
  unfold sumJs
  rw [sumJs_from]
  simp [JsNum.toRat_ofInt]

/-! Lemmas about the stable insertion sort modelling lodash `_.sortBy`. -/

theorem insertAsc_perm {α : Type} (le : α → α → Bool) (x : α) (l : List α) :
    (insertAsc le x l).Perm (x :: l) := by
  induction l with
  | nil => simp [insertAsc]
  | cons y ys ih =>
    unfold insertAsc
    by_cases h : le y x = true
    · rw [if_pos h]
      exact (ih.cons y).trans (List.Perm.swap x y ys)
    · rw [if_neg h]

theorem sortByAsc_from_perm {α : Type} (le : α → α → Bool) (l acc : List α) :
    (l.foldl (fun acc x => insertAsc le x acc) acc).Perm (acc ++ l) := by
  induction l generalizing acc with
  | nil => simp
  | cons x xs ih =>
    simp only [List.foldl_cons]
    refine (ih (insertAsc le x acc)).trans ?_
    have h1 : (insertAsc le x acc ++ xs).Perm ((x :: acc) ++ xs) :=
      (insertAsc_perm le x acc).append_right xs
    refine h1.trans ?_
    simpa using List.perm_middle.symm

theorem sortByAsc_perm {α : Type} (le : α → α → Bool) (l : List α) :
    (sortByAsc le l).Perm l := by
  simpa [sortByAsc] using sortByAsc_from_perm le l []

theorem mem_sortByAsc {α : Type} (le : α → α → Bool) (l : List α) (x : α) :
    x ∈ sortByAsc le l ↔ x ∈ l :=
  (sortByAsc_perm le l).mem_iff

theorem length_sortByAsc {α : Type} (le : α → α → Bool) (l : List α) :
    (sortByAsc le l).length = l.length :=
  (sortByAsc_perm le l).length_eq

theorem insertAsc_sorted {α : Type} (le : α → α → Bool)
    (htrans : ∀ a b c, le a b = true → le b c = true → le a c = true)
    (htot : ∀ a b, le a b = true ∨ le b a = true) (x : α) (l : List α)
    (hl : l.Pairwise fun a b => le a b = true) :
    (insertAsc le x l).Pairwise fun a b => le a b = true := by
  induction l with
  | nil => simp [insertAsc]
  | cons y ys ih =>
    rw [List.pairwise_cons] at hl
    obtain ⟨hy, hys⟩ := hl
    unfold insertAsc
    by_cases h : le y x = true
    · rw [if_pos h]
      rw [List.pairwise_cons]
      constructor
      · intro z hz
        rcases List.mem_cons.mp ((insertAsc_perm le x ys).mem_iff.mp hz) with rfl | hz2
        · exact h
        · exact hy z hz2
      · exact ih hys
    · rw [if_neg h]
      rw [List.pairwise_cons]
      constructor
      · intro z hz
        rcases List.mem_cons.mp hz with hz1 | hz2
        · subst hz1
          rcases htot x z with h1 | h1
          · exact h1
          · exact absurd h1 h
        · rcases htot x y with h1 | h1
          · exact htrans x y z h1 (hy z hz2)
          · exact absurd h1 h
      · exact List.pairwise_cons.mpr ⟨hy, hys⟩

theorem sortByAsc_sorted {α : Type} (le : α → α → Bool)
    (htrans : ∀ a b c, le a b = true → le b c = true → le a c = true)
    (htot : ∀ a b, le a b = true ∨ le b a = true) (l : List α) :
    (sortByAsc le l).Pairwise fun a b => le a b = true := by
  have aux : ∀ (l acc : List α), acc.Pairwise (fun a b => le a b = true) →
      (l.foldl (fun acc x => insertAsc le x acc) acc).Pairwise
        fun a b => le a b = true := by
    intro l
    induction l with
    | nil => intro acc h; simpa using h
    | cons x xs ih =>
      intro acc h
      simp only [List.foldl_cons]
      exact ih (insertAsc le x acc) (insertAsc_sorted le htrans htot x acc h)
  exact aux l [] (by simp)

/-! Lemmas about the models of lodash `_.max`. -/

theorem foldl_max_choice {α : Type} [LinearOrder α] (xs : List α) (acc : α) :
    xs.foldl max acc = acc ∨ xs.foldl max acc ∈ xs := by
  induction xs generalizing acc with
  | nil => simp
  | cons x xs ih =>
    simp only [List.foldl_cons]
    rcases ih (max acc x) with h | h
    · rcases max_choice acc x with h2 | h2
      · exact Or.inl (h.trans h2)
      · exact Or.inr (by rw [h, h2]; exact List.mem_cons_self x xs)
    · exact Or.inr (List.mem_cons_of_mem x h)

theorem le_foldl_max {α : Type} [LinearOrder α] (xs : List α) (acc : α) :
    acc ≤ xs.foldl max acc ∧ ∀ x ∈ xs, x ≤ xs.foldl max acc := by
  induction xs generalizing acc with
  | nil => simp
  | cons x xs ih =>
    simp only [List.foldl_cons]
    obtain ⟨h1, h2⟩ := ih (max acc x)
    refine ⟨le_trans (le_max_left acc x) h1, ?_⟩
    intro z hz
    rcases List.mem_cons.mp hz with rfl | hz2
    · exact le_trans (le_max_right acc _) h1
    · exact h2 z hz2

theorem jsMaxNat_eq_some {l : List Nat} {a : Nat} (ha : a ∈ l)
    (hmax : ∀ x ∈ l, x ≤ a) : jsMaxNat l = some a := by
  cases l with
  | nil => cases ha
  | cons x xs =>
    have hle : xs.foldl max x ≤ a := by
      rcases foldl_max_choice xs x with h | h
      · rw [h]
        exact hmax x (List.mem_cons_self x xs)
      · exact hmax _ (List.mem_cons_of_mem x h)
    have hge : a ≤ xs.foldl max x := by
      rcases List.mem_cons.mp ha with rfl | h
      · exact (le_foldl_max xs a).1
      · exact (le_foldl_max xs x).2 a h
    show some (xs.foldl max x) = some a
    rw [le_antisymm hle hge]

theorem toRat_maxJs (a b : JsNum) : (maxJs a b).toRat = max a.toRat b.toRat := by
  unfold maxJs
  by_cases h : a.leJ b = true
  · rw [if_pos h, max_eq_right ((JsNum.leJ_iff a b).mp h)]
  · rw [if_neg h]
    have : ¬a.toRat ≤ b.toRat := fun hc => h ((JsNum.leJ_iff a b).mpr hc)
    rw [max_eq_left (le_of_not_le this)]

theorem foldl_maxJs_toRat (xs : List JsNum) (acc : JsNum) :
    (xs.foldl maxJs acc).toRat = (xs.map JsNum.toRat).foldl max acc.toRat := by
  induction xs generalizing acc with
  | nil => simp
  | cons x xs ih =>
    simp only [List.foldl_cons, List.map_cons]
    rw [ih, toRat_maxJs]

theorem jsMaxJs_eq_value {l : List JsNum} {a : JsNum} (ha : a ∈ l)
    (hmax : ∀ x ∈ l, x.toRat ≤ a.toRat) :
    ∃ m, jsMaxJs l = some m ∧ m.toRat = a.toRat := by
  cases l with
  | nil => cases ha
  | cons x xs =>
    refine ⟨xs.foldl maxJs x, rfl, ?_⟩
    rw [foldl_maxJs_toRat]
    have hle : (xs.map JsNum.toRat).foldl max x.toRat ≤ a.toRat := by
      rcases foldl_max_choice (xs.map JsNum.toRat) x.toRat with h | h
      · rw [h]
        exact hmax x (List.mem_cons_self x xs)
      · obtain ⟨y, hy, hyeq⟩ := List.mem_map.mp h
        rw [← hyeq]
        exact hmax y (List.mem_cons_of_mem x hy)
    have hge : a.toRat ≤ (xs.map JsNum.toRat).foldl max x.toRat := by
      rcases List.mem_cons.mp ha with rfl | h
      · exact (le_foldl_max (xs.map JsNum.toRat) a.toRat).1
      · exact (le_foldl_max (xs.map JsNum.toRat) x.toRat).2 a.toRat
          (List.mem_map.mpr ⟨a, h, rfl⟩)
    exact le_antisymm hle hge

/-! Lemmas about the substring test. -/

theorem jsIncludes_nil (hay : List Nat) : jsIncludes hay [] = true := by
  unfold jsIncludes
  rw [List.any_eq_true]
  exact ⟨0, List.mem_range.mpr (by omega), by simp [List.isPrefixOf]⟩

theorem jsIncludes_single {hay : List Nat} {c : Nat} (h : c ∈ hay) :
    jsIncludes hay [c] = true := by
  obtain ⟨i, hi, hieq⟩ := List.getElem_of_mem h
  unfold jsIncludes
  rw [List.any_eq_true]
  refine ⟨i, List.mem_range.mpr (by omega), ?_⟩
  rw [List.drop_eq_getElem_cons hi, hieq]
  simp [List.isPrefixOf]

/-! Lemmas about the unicode-aware split (lodash stringToArray). -/

theorem isPrefixOf_self_append (x v : List Nat) : x.isPrefixOf (x ++ v) = true := by
  induction x with
  | nil => simp [List.isPrefixOf]
  | cons a as ih => simp [List.isPrefixOf, ih]

theorem jsIncludes_append (u x v : List Nat) :
    jsIncludes (u ++ (x ++ v)) x = true := by
  unfold jsIncludes
  rw [List.any_eq_true]
  refine ⟨u.length, List.mem_range.mpr ?_, ?_⟩
  · simp only [List.length_append]
    omega
  · rw [List.drop_left]
    exact isPrefixOf_self_append x v

theorem takeBase_append (s : List Nat) : (takeBase s).1 ++ (takeBase s).2 = s := by
  cases s with
  | nil => rfl
  | cons c rest =>
    simp only [takeBase]
    repeat' split
    all_goals rfl

theorem takeJoinBase_append (s : List Nat) :
    (takeJoinBase s).1 ++ (takeJoinBase s).2 = s := by
  cases s with
  | nil => rfl
  | cons c rest =>
    simp only [takeJoinBase]
    repeat' split
    all_goals rfl

theorem takeOptVar_append (s : List Nat) :
    (takeOptVar s).1 ++ (takeOptVar s).2 = s := by
  cases s with
  | nil => rfl
  | cons c rest =>
    simp only [takeOptVar]
    split
    · rfl
    · rfl

theorem takeOptMod_append (s : List Nat) :
    (takeOptMod s).1 ++ (takeOptMod s).2 = s := by
  cases s with
  | nil => rfl
  | cons c rest =>
    simp only [takeOptMod]
    split
    · rfl
    · rfl

theorem takeJoins_append (f : Nat) (s : List Nat) :
    (takeJoins f s).1 ++ (takeJoins f s).2 = s := by
  induction f generalizing s with
  | zero => rfl
  | succ f ih =>
    cases s with
    | nil => rfl
    | cons c rest =>
      simp only [takeJoins]
      split
      · split
        · rfl
        · rename_i hd tl
          have hb := takeJoinBase_append (hd :: tl)
          have hv := takeOptVar_append (takeJoinBase (hd :: tl)).2
          have hm := takeOptMod_append (takeOptVar (takeJoinBase (hd :: tl)).2).2
          have hj := ih (takeOptMod (takeOptVar (takeJoinBase (hd :: tl)).2).2).2
          simp only [List.cons_append, List.append_assoc]
          rw [hj, hm, hv, hb]
      · rfl

theorem takeSymbol_append (s : List Nat) :
    (takeSymbol s).1 ++ (takeSymbol s).2 = s := by
  cases s with
  | nil => rfl
  | cons c rest =>
    simp only [takeSymbol]
    split
    · rfl
    · have hb := takeBase_append (c :: rest)
      have hv := takeOptVar_append (takeBase (c :: rest)).2
      have hm := takeOptMod_append (takeOptVar (takeBase (c :: rest)).2).2
      have hj := takeJoins_append
        ((takeOptMod (takeOptVar (takeBase (c :: rest)).2).2).2.length)
        (takeOptMod (takeOptVar (takeBase (c :: rest)).2).2).2
      simp only [List.append_assoc]
      rw [hj, hm, hv, hb]

theorem takeBase_ne_nil (c : Nat) (rest : List Nat) :
    (takeBase (c :: rest)).1 ≠ [] := by
  simp only [takeBase]
  repeat' split
  all_goals simp

theorem takeSymbol_ne_nil (c : Nat) (rest : List Nat) :
    (takeSymbol (c :: rest)).1 ≠ [] := by
  simp only [takeSymbol]
  split
  · simp
  · intro h
    simp only [List.append_eq_nil] at h
    exact takeBase_ne_nil c rest h.1.1.1

theorem mem_splitSymbols_segment (f : Nat) :
    ∀ (s x : List Nat), x ∈ splitSymbols f s → ∃ u v, s = u ++ (x ++ v) := by
  induction f with
  | zero =>
    intro s x hx
    cases s with
    | nil => simp [splitSymbols] at hx
    | cons c rest =>
      have hxe : x = c :: rest := by
        simpa [splitSymbols] using hx
      exact ⟨[], [], by simp [hxe]⟩
  | succ f ih =>
    intro s x hx
    cases s with
    | nil => simp [splitSymbols] at hx
    | cons c rest =>
      have hx2 : x = (takeSymbol (c :: rest)).1 ∨
          x ∈ splitSymbols f (takeSymbol (c :: rest)).2 := by
        simpa [splitSymbols] using hx
      rcases hx2 with rfl | hmem
      · exact ⟨[], (takeSymbol (c :: rest)).2, by
          rw [List.nil_append]; exact (takeSymbol_append (c :: rest)).symm⟩
      · obtain ⟨u, v, huv⟩ := ih _ x hmem
        refine ⟨(takeSymbol (c :: rest)).1 ++ u, v, ?_⟩
        rw [List.append_assoc]
        rw [← huv]
        exact (takeSymbol_append (c :: rest)).symm

theorem mem_splitSymbols_ne_nil (f : Nat) :
    ∀ (s x : List Nat), x ∈ splitSymbols f s → x ≠ [] := by
  induction f with
  | zero =>
    intro s x hx
    cases s with
    | nil => simp [splitSymbols] at hx
    | cons c rest =>
      have hxe : x = c :: rest := by simpa [splitSymbols] using hx
      simp [hxe]
  | succ f ih =>
    intro s x hx
    cases s with
    | nil => simp [splitSymbols] at hx
    | cons c rest =>
      have hx2 : x = (takeSymbol (c :: rest)).1 ∨
          x ∈ splitSymbols f (takeSymbol (c :: rest)).2 := by
        simpa [splitSymbols] using hx
      rcases hx2 with rfl | hmem
      · exact takeSymbol_ne_nil c rest
      · exact ih _ x hmem

theorem mem_querySplitted_segment {q x : List Nat} (hx : x ∈ querySplitted q) :
    ∃ u v, q = u ++ (x ++ v) := by
  unfold querySplitted at hx
  by_cases hu : hasUnicodeStr q = true
  · rw [if_pos hu] at hx
    exact mem_splitSymbols_segment q.length q x hx
  · rw [if_neg hu] at hx
    obtain ⟨c, hc, rfl⟩ := List.mem_map.mp hx
    obtain ⟨l1, l2, hl⟩ := List.append_of_mem hc
    exact ⟨l1, l2, by simpa using hl⟩

theorem mem_querySplitted_ne_nil {q x : List Nat} (hx : x ∈ querySplitted q) :
    x ≠ [] := by
  unfold querySplitted at hx
  by_cases hu : hasUnicodeStr q = true
  · rw [if_pos hu] at hx
    exact mem_splitSymbols_ne_nil q.length q x hx
  · rw [if_neg hu] at hx
    obtain ⟨c, hc, rfl⟩ := List.mem_map.mp hx
    simp

theorem querySplitted_ne_nil {q : List Nat} (hq : q ≠ []) :
    querySplitted q ≠ [] := by
  cases q with
  | nil => exact absurd rfl hq
  | cons c rest =>
    unfold querySplitted
    by_cases hu : hasUnicodeStr (c :: rest) = true
    · rw [if_pos hu]
      unfold stringToArray
      simp [splitSymbols]
    · rw [if_neg hu]
      simp

theorem jsSize_pos {s : List Nat} (hs : s ≠ []) : 0 < jsSize s := by
  cases s with
  | nil => exact absurd rfl hs
  | cons c rest =>
    unfold jsSize
    by_cases hu : hasUnicodeStr (c :: rest) = true
    · rw [if_pos hu]
      unfold stringToArray
      simp [splitSymbols]
    · rw [if_neg hu]
      simp

theorem takeBase_single (c : Nat) : takeBase [c] = ([c], []) := by
  simp only [takeBase]
  repeat' split
  all_goals rfl

theorem takeSymbol_single (c : Nat) : takeSymbol [c] = ([c], []) := by
  simp only [takeSymbol]
  rw [show (isFitzMod c && headIsFitz ([] : List Nat)) = false by
    simp [headIsFitz]]
  rw [if_neg (show ¬(false = true) by decide)]
  rw [takeBase_single]
  rfl

theorem jsSize_single (c : Nat) : jsSize [c] = 1 := by
  unfold jsSize
  by_cases hu : hasUnicodeStr [c] = true
  · rw [if_pos hu]
    unfold stringToArray
    show (splitSymbols 1 [c]).length = 1
    rw [show splitSymbols 1 [c] =
      (takeSymbol [c]).1 :: splitSymbols 0 (takeSymbol [c]).2 from rfl]
    rw [takeSymbol_single]
    rfl
  · rw [if_neg hu]
    rfl

theorem takeSymbol_plain (c : Nat) (rest : List Nat)
    (hc : isPlainSymbolChar c = true)
    (hrest : ∀ c2 ∈ rest, isPlainSymbolChar c2 = true) :
    takeSymbol (c :: rest) = ([c], rest) := by
  simp only [isPlainSymbolChar, Bool.and_eq_true, Bool.not_eq_true'] at hc
  obtain ⟨⟨hca, hcr⟩, hcf⟩ := hc
  simp only [takeSymbol]
  rw [show (isFitzMod c && headIsFitz rest) = false by rw [hcf]; rfl]
  rw [if_neg (show ¬(false = true) by decide)]
  have hbase : takeBase (c :: rest) = ([c], rest) := by
    simp only [takeBase]
    rw [if_pos hca, if_neg (show ¬(isRegionalInd c = true) by simp [hcr])]
  rw [hbase]
  cases rest with
  | nil => rfl
  | cons c2 r2 =>
    have h2 := hrest c2 (List.mem_cons_self c2 r2)
    simp only [isPlainSymbolChar, Bool.and_eq_true, Bool.not_eq_true'] at h2
    obtain ⟨⟨h2a, h2r⟩, h2f⟩ := h2
    have h2a2 : 0x10000 ≤ c2 := by
      simpa [isAstralCp] using h2a
    have hv : isVariationUnit c2 = false := by
      simp only [isVariationUnit, Bool.or_eq_false_iff, decide_eq_false_iff_not]
      omega
    have hcm : isComboMark c2 = false := by
      simp only [isComboMark, Bool.or_eq_false_iff, Bool.and_eq_false_iff,
        decide_eq_false_iff_not]
      omega
    have hzwj : isZeroWidthJoiner c2 = false := by
      simp only [isZeroWidthJoiner, decide_eq_false_iff_not]
      omega
    have hov : takeOptVar (c2 :: r2) = ([], c2 :: r2) := by
      simp only [takeOptVar]
      rw [if_neg (show ¬(isVariationUnit c2 = true) by simp [hv])]
    have hom : takeOptMod (c2 :: r2) = ([], c2 :: r2) := by
      simp only [takeOptMod]
      rw [if_neg (show ¬((isComboMark c2 || isFitzMod c2) = true) by
        simp [hcm, h2f])]
    have hoj : takeJoins (c2 :: r2).length (c2 :: r2) = ([], c2 :: r2) := by
      show takeJoins (r2.length + 1) (c2 :: r2) = ([], c2 :: r2)
      simp only [takeJoins]
      rw [if_neg (show ¬(isZeroWidthJoiner c2 = true) by simp [hzwj])]
    simp only [hov, hom, hoj]
    rfl

theorem splitSymbols_plain (f : Nat) :
    ∀ (s : List Nat), s.length ≤ f →
      (∀ c ∈ s, isPlainSymbolChar c = true) →
      splitSymbols f s = s.map fun c => [c] := by
  induction f with
  | zero =>
    intro s hlen _
    have hzero : s.length = 0 := by omega
    cases s with
    | nil => rfl
    | cons c rest => simp at hzero
  | succ f ih =>
    intro s hlen hplain
    cases s with
    | nil => rfl
    | cons c rest =>
      have hts := takeSymbol_plain c rest (hplain c (List.mem_cons_self c rest))
        (fun c2 h2 => hplain c2 (List.mem_cons_of_mem c h2))
      show (takeSymbol (c :: rest)).1 ::
          splitSymbols f (takeSymbol (c :: rest)).2 = _
      rw [hts]
      have hrest : splitSymbols f rest = rest.map fun c => [c] :=
        ih rest (by simp only [List.length_cons] at hlen; omega)
          (fun c2 h2 => hplain c2 (List.mem_cons_of_mem c h2))
      rw [hrest]
      rfl

theorem querySplitted_plain {q : List Nat}
    (h : ∀ c ∈ q, isPlainSymbolChar c = true) :
    querySplitted q = q.map fun c => [c] := by
  unfold querySplitted
  by_cases hu : hasUnicodeStr q = true
  · rw [if_pos hu]
    exact splitSymbols_plain q.length q le_rfl h
  · rw [if_neg hu]

/-! Lemmas about the n-gram scan (lines 179-193). -/

theorem jsUnionSingle_mem (s x : List Nat) (m : List (List Nat)) :
    x ∈ jsUnionSingle s m ↔ x = s ∨ x ∈ m := by
  unfold jsUnionSingle
  rw [List.mem_cons, List.mem_filter]
  by_cases hx : x = s
  · simp [hx]
  · simp [hx]

theorem jsUnionSingle_nodup (s : List Nat) (m : List (List Nat)) (h : m.Nodup) :
    (jsUnionSingle s m).Nodup := by
  unfold jsUnionSingle
  rw [List.nodup_cons]
  constructor
  · intro hmem
    rw [List.mem_filter] at hmem
    exact (decide_eq_true_iff.mp hmem.2) rfl
  · exact h.filter _

theorem scan_from_sum (t : List Nat) (subs : List (List Nat))
    (acc : JsNum × List (List Nat)) :
    (subs.foldl (scanStep t) acc).1.toRat =
      acc.1.toRat +
        ((subs.filter fun s => jsIncludes t (stripVariationSelectors s)).map
          fun s => (jsSize s : ℚ)).sum := by
  induction subs generalizing acc with
  | nil => simp
  | cons s ss ih =>
    simp only [List.foldl_cons]
    by_cases h : jsIncludes t (stripVariationSelectors s) = true
    · rw [show scanStep t acc s =
          (acc.1.add (JsNum.ofInt (jsSize s)), jsUnionSingle s acc.2) by
            unfold scanStep; rw [if_pos h]]
      rw [ih, JsNum.toRat_add, JsNum.toRat_ofInt]
      rw [List.filter_cons, if_pos h]
      simp only [List.map_cons, List.sum_cons]
      push_cast
      ring
    · rw [show scanStep t acc s = acc by unfold scanStep; rw [if_neg h]]
      rw [ih]
      rw [List.filter_cons, if_neg h]

theorem scan_from_mem (t : List Nat) (subs : List (List Nat))
    (acc : JsNum × List (List Nat)) (x : List Nat) :
    x ∈ (subs.foldl (scanStep t) acc).2 ↔
      x ∈ acc.2 ∨ (x ∈ subs ∧ jsIncludes t (stripVariationSelectors x) = true) := by
  induction subs generalizing acc with
  | nil => simp
  | cons s ss ih =>
    simp only [List.foldl_cons]
    by_cases h : jsIncludes t (stripVariationSelectors s) = true
    · rw [show scanStep t acc s =
          (acc.1.add (JsNum.ofInt (jsSize s)), jsUnionSingle s acc.2) by
            unfold scanStep; rw [if_pos h]]
      rw [ih]
      simp only [jsUnionSingle_mem, List.mem_cons]
      constructor
      · rintro ((rfl | hm) | hss)
        · exact Or.inr ⟨Or.inl rfl, h⟩
        · exact Or.inl hm
        · exact Or.inr ⟨Or.inr hss.1, hss.2⟩
      · rintro (hm | ⟨(rfl | hss), hx⟩)
        · exact Or.inl (Or.inr hm)
        · exact Or.inl (Or.inl rfl)
        · exact Or.inr ⟨hss, hx⟩
    · rw [show scanStep t acc s = acc by unfold scanStep; rw [if_neg h]]
      rw [ih]
      constructor
      · rintro (hm | hss)
        · exact Or.inl hm
        · exact Or.inr ⟨List.mem_cons_of_mem s hss.1, hss.2⟩
      · rintro (hm | ⟨hmem, hx⟩)
        · exact Or.inl hm
        · rcases List.mem_cons.mp hmem with rfl | hss
          · exact absurd hx h
          · exact Or.inr ⟨hss, hx⟩

theorem scan_from_nodup (t : List Nat) (subs : List (List Nat))
    (acc : JsNum × List (List Nat)) (h : acc.2.Nodup) :
    (subs.foldl (scanStep t) acc).2.Nodup := by
  induction subs generalizing acc with
  | nil => exact h
  | cons s ss ih =>
    simp only [List.foldl_cons]
    by_cases hs : jsIncludes t (stripVariationSelectors s) = true
    · rw [show scanStep t acc s =
          (acc.1.add (JsNum.ofInt (jsSize s)), jsUnionSingle s acc.2) by
            unfold scanStep; rw [if_pos hs]]
      exact ih _ (jsUnionSingle_nodup s acc.2 h)
    · rw [show scanStep t acc s = acc by unfold scanStep; rw [if_neg hs]]
      exact ih _ h

theorem scanSubsets_sum (t : List Nat) (subs : List (List Nat)) :
    (scanSubsets t subs).1.toRat =
      ((subs.filter fun s => jsIncludes t (stripVariationSelectors s)).map
        fun s => (jsSize s : ℚ)).sum := by
  unfold scanSubsets
  rw [scan_from_sum]
  simp [JsNum.toRat_ofInt]

theorem scanSubsets_mem (t : List Nat) (subs : List (List Nat)) (x : List Nat) :
    x ∈ (scanSubsets t subs).2 ↔
      x ∈ subs ∧ jsIncludes t (stripVariationSelectors x) = true := by
  unfold scanSubsets
  rw [scan_from_mem]
  simp

theorem scanSubsets_nodup (t : List Nat) (subs : List (List Nat)) :
    (scanSubsets t subs).2.Nodup := by
  unfold scanSubsets
  exact scan_from_nodup t subs _ List.nodup_nil

theorem nodup_subset_length_le (l₁ l₂ : List (List Nat)) (h1 : l₁.Nodup)
    (h2 : ∀ x ∈ l₁, x ∈ l₂) : l₁.length ≤ l₂.dedup.length := by
  have hcard : l₁.toFinset.card = l₁.length := List.toFinset_card_of_nodup h1
  have hsub : l₁.toFinset ⊆ l₂.toFinset := fun x hx =>
    List.mem_toFinset.mpr (h2 x (List.mem_toFinset.mp hx))
  calc l₁.length = l₁.toFinset.card := hcard.symm
    _ ≤ l₂.toFinset.card := Finset.card_le_card hsub
    _ = l₂.dedup.length := List.card_toFinset l₂

theorem filter_map_length_sum_le (subs : List (List Nat)) (p : List Nat → Bool) :
    (((subs.filter p).map fun s => (jsSize s : ℚ)).sum) ≤
      ((subs.map fun s => (jsSize s : ℚ)).sum) := by
  induction subs with
  | nil => simp
  | cons s ss ih =>
    by_cases h : p s = true
    · rw [List.filter_cons_of_pos h]
      simp only [List.map_cons, List.sum_cons]
      linarith
    · rw [List.filter_cons_of_neg h]
      simp only [List.map_cons, List.sum_cons]
      have : (0 : ℚ) ≤ (jsSize s : ℚ) := by positivity
      linarith

theorem all_matched_of_sum_eq (subs : List (List Nat)) (p : List Nat → Bool)
    (hne : ∀ s ∈ subs, s ≠ [])
    (heq : (((subs.filter p).map fun s => (jsSize s : ℚ)).sum) =
      ((subs.map fun s => (jsSize s : ℚ)).sum)) :
    ∀ s ∈ subs, p s = true := by
  induction subs with
  | nil => simp
  | cons s ss ih =>
    by_cases h : p s = true
    · rw [List.filter_cons_of_pos h] at heq
      simp only [List.map_cons, List.sum_cons] at heq
      have heq2 : (((ss.filter p).map fun s => (jsSize s : ℚ)).sum) =
          ((ss.map fun s => (jsSize s : ℚ)).sum) := by linarith
      intro z hz
      rcases List.mem_cons.mp hz with rfl | hzss
      · exact h
      · exact ih (fun w hw => hne w (List.mem_cons_of_mem s hw)) heq2 z hzss
    · exfalso
      rw [List.filter_cons_of_neg h] at heq
      simp only [List.map_cons, List.sum_cons] at heq
      have hbound := filter_map_length_sum_le ss p
      have hslen : 1 ≤ (jsSize s : ℚ) := by
        have := hne s (List.mem_cons_self s ss)
        have hpos : 0 < jsSize s := jsSize_pos this
        exact_mod_cast hpos
      linarith

theorem all_matched_sum_eq (subs : List (List Nat)) (p : List Nat → Bool)
    (hall : ∀ s ∈ subs, p s = true) :
    (((subs.filter p).map fun s => (jsSize s : ℚ)).sum) =
      ((subs.map fun s => (jsSize s : ℚ)).sum) := by
  rw [List.filter_eq_self.mpr hall]

theorem subsetLengthSum_toRat (subs : List (List Nat)) :
    (subsetLengthSum subs).toRat = ((subs.map fun s => (jsSize s : ℚ)).sum) := by
  unfold subsetLengthSum
  rw [sumJs_toRat, List.map_map]
  simp [Function.comp_def, JsNum.toRat_ofInt]

/-! Lemmas about the subset list. -/

theorem runSearch_eq_pipeline (ext : ExtFns) (lib : Nat → List Token)
    (st : ServerState) (q : List Nat) (opts : SearchOpts) :
    runSearch ext lib st q opts =
      jsTake opts.limit
        (sortByAsc measureLE
          (policyStage opts (pipelineCombined ext lib st q opts))).reverse := rfl

theorem mem_sliceSubsets_ne_nil {qs : List (List Nat)} {s : List Nat}
    (hqs : ∀ x ∈ qs, x ≠ []) (hs : s ∈ sliceSubsets qs) : s ≠ [] := by
  unfold sliceSubsets at hs
  rw [List.mem_flatten] at hs
  obtain ⟨inner, hinner, hsin⟩ := hs
  rw [List.mem_map] at hinner
  obtain ⟨start, hstart, rfl⟩ := hinner
  rw [List.mem_map] at hsin
  obtain ⟨off, hoff, rfl⟩ := hsin
  rw [List.mem_range] at hstart
  rw [List.mem_range] at hoff
  cases hL : (qs.drop start).take (off + 1) with
  | nil =>
    have hlen := congrArg List.length hL
    rw [List.length_take, List.length_drop] at hlen
    simp only [List.length_nil] at hlen
    omega
  | cons y L2 =>
    have hy : y ∈ qs := by
      have hyt : y ∈ (qs.drop start).take (off + 1) := by
        rw [hL]; exact List.mem_cons_self y L2
      exact List.mem_of_mem_drop (List.mem_of_mem_take hyt)
    have hyne := hqs y hy
    intro hnil
    rw [List.flatten_cons, List.append_eq_nil] at hnil
    exact hyne hnil.1

theorem subsetsOf_elem_ne_nil {q : List Nat} {po : Bool} :
    ∀ s ∈ subsetsOf q po, s ≠ [] := by
  intro s hs
  unfold subsetsOf at hs
  cases po with
  | true =>
    rw [if_pos rfl] at hs
    exact mem_sliceSubsets_ne_nil (fun x hx => mem_querySplitted_ne_nil hx)
      ((mem_sortByAsc _ _ _).mp hs)
  | false =>
    rw [if_neg (by simp)] at hs
    exact mem_querySplitted_ne_nil hs

theorem subsetsOf_exists_mem {q : List Nat} (po : Bool) (hq : q ≠ []) :
    ∃ s, s ∈ subsetsOf q po := by
  have hqs : querySplitted q ≠ [] := querySplitted_ne_nil hq
  have hlen : 0 < (querySplitted q).length := List.length_pos.mpr hqs
  unfold subsetsOf
  cases po with
  | true =>
    rw [if_pos rfl]
    refine ⟨(((querySplitted q).drop 0).take 1).flatten, ?_⟩
    rw [mem_sortByAsc]
    unfold sliceSubsets
    rw [List.mem_flatten]
    refine ⟨(List.range ((querySplitted q).length - 0)).map
        fun off => (((querySplitted q).drop 0).take (off + 1)).flatten, ?_, ?_⟩
    · exact List.mem_map.mpr ⟨0, List.mem_range.mpr hlen, rfl⟩
    · exact List.mem_map.mpr ⟨0, List.mem_range.mpr (by omega), rfl⟩
  | false =>
    rw [if_neg (by simp)]
    cases hqe : querySplitted q with
    | nil => exact absurd hqe hqs
    | cons s rest => exact ⟨s, List.mem_cons_self s rest⟩

theorem subsetLengthSum_pos {q : List Nat} (po : Bool) (hq : q ≠ []) :
    0 < (subsetLengthSum (subsetsOf q po)).toRat := by
  rw [subsetLengthSum_toRat]
  obtain ⟨s0, hs0⟩ := subsetsOf_exists_mem po hq
  have hnonneg : ∀ x ∈ (subsetsOf q po).map fun s => ((jsSize s : ℚ)), 0 ≤ x := by
    intro x hx
    rw [List.mem_map] at hx
    obtain ⟨s, _, rfl⟩ := hx
    positivity
  have hmem : ((jsSize s0 : ℚ)) ∈ (subsetsOf q po).map fun s => ((jsSize s : ℚ)) :=
    List.mem_map.mpr ⟨s0, hs0, rfl⟩
  have hle := List.single_le_sum hnonneg _ hmem
  have hpos : 0 < jsSize s0 := jsSize_pos (subsetsOf_elem_ne_nil s0 hs0)
  have h1 : (1 : ℚ) ≤ ((jsSize s0 : ℚ)) := by exact_mod_cast hpos
  linarith

theorem subsetLengthSum_num_ne {q : List Nat} (po : Bool) (hq : q ≠ []) :
    (subsetLengthSum (subsetsOf q po)).num ≠ 0 := by
  intro h
  have := (subsetLengthSum (subsetsOf q po)).num_eq_zero_iff.mp h
  have hpos := subsetLengthSum_pos po hq
  rw [this] at hpos
  exact lt_irrefl 0 hpos

theorem nonAscii_ne_nil {q : List Nat} (hq : isAscii q = false) : q ≠ [] := by
  intro h
  subst h
  simp [isAscii] at hq

/-! Shape lemmas for the pipeline stages. -/

theorem scoredStage_entry {ext : ExtFns} {lib : Nat → List Token}
    {st : ServerState} {q : List Nat} {e : SearchEntry}
    (he : e ∈ scoredStage ext lib st q) : e.measure2 = none ∧ e.matchList = [] := by
  unfold scoredStage at he
  rw [List.mem_map] at he
  obtain ⟨d, _, rfl⟩ := he
  exact ⟨rfl, rfl⟩

theorem ngramStage_ascii {ext : ExtFns} {lib : Nat → List Token}
    {st : ServerState} {q : List Nat} {po : Bool} (hq : isAscii q = true) :
    ngramStage ext lib st q po = scoredStage ext lib st q := by
  unfold ngramStage
  rw [if_pos hq]

theorem ngramStage_entry {ext : ExtFns} {lib : Nat → List Token}
    {st : ServerState} {q : List Nat} {po : Bool} (hq : isAscii q = false)
    {e : SearchEntry} (he : e ∈ ngramStage ext lib st q po) :
    e.measure2 = some ((scanSubsets (stripVariationSelectors e.emoji)
        (subsetsOf q po)).1.div (subsetLengthSum (subsetsOf q po))) ∧
      e.matchList = (scanSubsets (stripVariationSelectors e.emoji) (subsetsOf q po)).2 := by
  unfold ngramStage at he
  rw [if_neg (by rw [hq]; exact Bool.false_ne_true)] at he
  rw [List.mem_map] at he
  obtain ⟨e0, _, rfl⟩ := he
  exact ⟨rfl, rfl⟩

theorem geoStage_sub {ext : ExtFns} {gf : Option GeofenceObj}
    {l : List SearchEntry} {e : SearchEntry} (he : e ∈ geoStage ext gf l) :
    e ∈ l := by
  unfold geoStage at he
  exact List.mem_of_mem_filter (List.mem_of_mem_filter he)

theorem geoStage_none (ext : ExtFns) (l : List SearchEntry) :
    geoStage ext none l = l := by
  unfold geoStage
  have h1 : List.filter (filterIsPointInside ext none) l = l :=
    List.filter_eq_self.mpr fun a _ => rfl
  rw [h1]
  exact List.filter_eq_self.mpr fun a _ => rfl

theorem combined_entry_src {ext : ExtFns} {lib : Nat → List Token}
    {st : ServerState} {q : List Nat} {opts : SearchOpts} {r : RankedEntry}
    (hr : r ∈ pipelineCombined ext lib st q opts) :
    ∃ e ∈ ngramStage ext lib st q opts.persistOrder,
      r.measure2 = e.measure2 ∧ r.matchList = e.matchList ∧ r.emoji = e.emoji ∧
        (opts.enableFuzzySearch = false → r.measure1 = JsNum.ofInt 0) ∧
        r.measure = r.measure1.add (jsOr0 r.measure2) ∧ r.measure.truthy = true := by
  unfold pipelineCombined combinedStage at hr
  rw [List.mem_filter] at hr
  obtain ⟨hmem, htruthy⟩ := hr
  rw [List.mem_map] at hmem
  obtain ⟨e1, he1, rfl⟩ := hmem
  unfold fuzzyZeroStage at he1
  cases hfz : opts.enableFuzzySearch with
  | false =>
    rw [hfz, if_neg (show ¬(false = true) by decide), List.mem_map] at he1
    obtain ⟨e2, he2, rfl⟩ := he1
    exact ⟨e2, geoStage_sub he2, rfl, rfl, rfl, fun _ => rfl, rfl, htruthy⟩
  | true =>
    rw [hfz, if_pos rfl] at he1
    refine ⟨e1, geoStage_sub he1, rfl, rfl, rfl, ?_, rfl, htruthy⟩
    intro h
    exact absurd h (show ¬(true = false) by decide)

theorem pipeline_entry_char {ext : ExtFns} {lib : Nat → List Token}
    {st : ServerState} {q : List Nat} {opts : SearchOpts} (hq : isAscii q = false)
    {r : RankedEntry} (hr : r ∈ pipelineCombined ext lib st q opts) :
    r.measure2 = some ((scanSubsets (stripVariationSelectors r.emoji)
        (subsetsOf q opts.persistOrder)).1.div
          (subsetLengthSum (subsetsOf q opts.persistOrder))) ∧
      r.matchList = (scanSubsets (stripVariationSelectors r.emoji)
        (subsetsOf q opts.persistOrder)).2 ∧
      (opts.enableFuzzySearch = false → r.measure1 = JsNum.ofInt 0) ∧
      r.measure = r.measure1.add (jsOr0 r.measure2) := by
  obtain ⟨e, he, hm2, hml, hemj, hm1, hms, _⟩ := combined_entry_src hr
  obtain ⟨hm2e, hmle⟩ := ngramStage_entry hq he
  refine ⟨?_, ?_, hm1, hms⟩
  · rw [hm2, hm2e, hemj]
  · rw [hml, hmle, hemj]

/-! Value lemmas for `measure2` and the match list. -/

theorem matchList_length_le (target : List Nat) (subs : List (List Nat)) :
    (scanSubsets target subs).2.length ≤ subs.dedup.length :=
  nodup_subset_length_le _ _ (scanSubsets_nodup target subs)
    fun x hx => ((scanSubsets_mem target subs x).mp hx).1

theorem matchList_length_eq_of_all (target : List Nat) (subs : List (List Nat))
    (hall : ∀ s ∈ subs, jsIncludes target (stripVariationSelectors s) = true) :
    (scanSubsets target subs).2.length = subs.dedup.length := by
  refine le_antisymm (matchList_length_le target subs) ?_
  have h := nodup_subset_length_le subs.dedup (scanSubsets target subs).2
    (List.nodup_dedup subs) ?_
  · rwa [List.dedup_eq_self.mpr (scanSubsets_nodup target subs)] at h
  · intro x hx
    have hxs : x ∈ subs := List.mem_dedup.mp hx
    exact (scanSubsets_mem target subs x).mpr ⟨hxs, hall x hxs⟩

theorem measure2_toRat (q : List Nat) (po : Bool) (target : List Nat) (hq : q ≠ []) :
    ((scanSubsets target (subsetsOf q po)).1.div
        (subsetLengthSum (subsetsOf q po))).toRat =
      (((subsetsOf q po).filter fun s =>
          jsIncludes target (stripVariationSelectors s)).map
            fun s => (jsSize s : ℚ)).sum /
        (((subsetsOf q po).map fun s => (jsSize s : ℚ)).sum) := by
  rw [JsNum.toRat_div _ _ (subsetLengthSum_num_ne po hq), scanSubsets_sum,
    subsetLengthSum_toRat]

theorem measure2_toRat_nonneg (q : List Nat) (po : Bool) (target : List Nat)
    (hq : q ≠ []) :
    0 ≤ ((scanSubsets target (subsetsOf q po)).1.div
      (subsetLengthSum (subsetsOf q po))).toRat := by
  rw [measure2_toRat q po target hq]
  have hden : 0 < (((subsetsOf q po).map fun s => (jsSize s : ℚ)).sum) := by
    have := subsetLengthSum_pos po hq
    rwa [subsetLengthSum_toRat] at this
  have hnum : 0 ≤ (((subsetsOf q po).filter fun s =>
      jsIncludes target (stripVariationSelectors s)).map fun s => (jsSize s : ℚ)).sum := by
    apply List.sum_nonneg
    intro x hx
    rw [List.mem_map] at hx
    obtain ⟨s, _, rfl⟩ := hx
    positivity
  positivity

theorem measure2_toRat_le_one (q : List Nat) (po : Bool) (target : List Nat)
    (hq : q ≠ []) :
    ((scanSubsets target (subsetsOf q po)).1.div
      (subsetLengthSum (subsetsOf q po))).toRat ≤ 1 := by
  rw [measure2_toRat q po target hq]
  have hden : 0 < (((subsetsOf q po).map fun s => (jsSize s : ℚ)).sum) := by
    have := subsetLengthSum_pos po hq
    rwa [subsetLengthSum_toRat] at this
  rw [div_le_one hden]
  exact filter_map_length_sum_le _ _

theorem measure2_eq_one_iff_all (q : List Nat) (po : Bool) (target : List Nat)
    (hq : q ≠ []) :
    ((scanSubsets target (subsetsOf q po)).1.div
        (subsetLengthSum (subsetsOf q po))).toRat = 1 ↔
      ∀ s ∈ subsetsOf q po, jsIncludes target (stripVariationSelectors s) = true := by
  rw [measure2_toRat q po target hq]
  have hden : 0 < (((subsetsOf q po).map fun s => (jsSize s : ℚ)).sum) := by
    have := subsetLengthSum_pos po hq
    rwa [subsetLengthSum_toRat] at this
  rw [div_eq_one_iff_eq hden.ne']
  constructor
  · intro h
    exact all_matched_of_sum_eq _ _ subsetsOf_elem_ne_nil h
  · intro h
    exact all_matched_sum_eq _ _ h

/-! Policy-filter pass-through lemmas. -/

theorem stripVS_single (c : Nat) :
    stripVariationSelectors [c] =
      if isVariationSelector c then [] else [c] := by
  unfold stripVariationSelectors
  by_cases h : isVariationSelector c
  · rw [if_pos h]
    simp [h]
  · rw [if_neg h]
    simp [h]

theorem perfect_entry_value {q : List Nat} {po : Bool} {r : RankedEntry}
    (hm2 : r.measure2 = some ((scanSubsets (stripVariationSelectors r.emoji)
      (subsetsOf q po)).1.div (subsetLengthSum (subsetsOf q po))))
    (hperf : filterPerfectMatch true r = true) :
    ((scanSubsets (stripVariationSelectors r.emoji)
      (subsetsOf q po)).1.div (subsetLengthSum (subsetsOf q po))).toRat = 1 := by
  unfold filterPerfectMatch at hperf
  rw [if_pos rfl, hm2] at hperf
  have := (JsNum.eqJ_iff _ _).mp hperf
  rwa [JsNum.toRat_ofInt] at this

theorem perfect_smallMatch {ext : ExtFns} {lib : Nat → List Token}
    {st : ServerState} {q : List Nat} {opts : SearchOpts}
    (hq : isAscii q = false) {r : RankedEntry}
    (hr : r ∈ pipelineCombined ext lib st q opts)
    (hperf : filterPerfectMatch true r = true) :
    filterSmallMatch true (pipelineCombined ext lib st q opts) r = true := by
  have hqne := nonAscii_ne_nil hq
  obtain ⟨hm2, hml, _, _⟩ := pipeline_entry_char hq hr
  have hone := perfect_entry_value hm2 hperf
  have hall := (measure2_eq_one_iff_all q opts.persistOrder
    (stripVariationSelectors r.emoji) hqne).mp hone
  have hlenr : r.matchList.length = (subsetsOf q opts.persistOrder).dedup.length := by
    rw [hml]
    exact matchList_length_eq_of_all _ _ hall
  have hbound : ∀ x ∈ (pipelineCombined ext lib st q opts).map
      (fun o => o.matchList.length), x ≤ r.matchList.length := by
    intro x hx
    rw [List.mem_map] at hx
    obtain ⟨o, ho, rfl⟩ := hx
    obtain ⟨_, hmlo, _, _⟩ := pipeline_entry_char hq ho
    rw [hmlo, hlenr]
    exact matchList_length_le _ _
  have hmem : r.matchList.length ∈ (pipelineCombined ext lib st q opts).map
      (fun o => o.matchList.length) := List.mem_map.mpr ⟨r, hr, rfl⟩
  have hmax : maxMatchesLength (pipelineCombined ext lib st q opts) =
      some r.matchList.length := jsMaxNat_eq_some hmem hbound
  unfold filterSmallMatch
  rw [if_pos rfl, hmax]
  simp

theorem pipeline_measure_toRat {ext : ExtFns} {lib : Nat → List Token}
    {st : ServerState} {q : List Nat} {opts : SearchOpts}
    (hq : isAscii q = false) (hfz : opts.enableFuzzySearch = false)
    {r : RankedEntry} (hr : r ∈ pipelineCombined ext lib st q opts) :
    r.measure.toRat = ((scanSubsets (stripVariationSelectors r.emoji)
      (subsetsOf q opts.persistOrder)).1.div
        (subsetLengthSum (subsetsOf q opts.persistOrder))).toRat := by
  obtain ⟨hm2, _, hm1, hms⟩ := pipeline_entry_char hq hr
  rw [hms, JsNum.toRat_add, hm1 hfz, JsNum.toRat_ofInt, hm2]
  simp [jsOr0]

theorem perfect_smallScore {ext : ExtFns} {lib : Nat → List Token}
    {st : ServerState} {q : List Nat} {opts : SearchOpts}
    (hq : isAscii q = false) (hfz : opts.enableFuzzySearch = false)
    {r : RankedEntry} (hr : r ∈ pipelineCombined ext lib st q opts)
    (hperf : filterPerfectMatch true r = true) :
    filterSmallScore true (pipelineCombined ext lib st q opts) r = true := by
  have hqne := nonAscii_ne_nil hq
  obtain ⟨hm2, _, _, _⟩ := pipeline_entry_char hq hr
  have hone := perfect_entry_value hm2 hperf
  have hrval : r.measure.toRat = 1 := by
    rw [pipeline_measure_toRat hq hfz hr, hone]
  have hbound : ∀ x ∈ (pipelineCombined ext lib st q opts).map
      (fun o => o.measure), x.toRat ≤ r.measure.toRat := by
    intro x hx
    rw [List.mem_map] at hx
    obtain ⟨o, ho, rfl⟩ := hx
    rw [pipeline_measure_toRat hq hfz ho, hrval]
    exact measure2_toRat_le_one q opts.persistOrder _ hqne
  have hmem : r.measure ∈ (pipelineCombined ext lib st q opts).map
      (fun o => o.measure) := List.mem_map.mpr ⟨r, hr, rfl⟩
  obtain ⟨m, hm, hmval⟩ := jsMaxJs_eq_value hmem hbound
  unfold filterSmallScore maxMeasure
  rw [if_pos rfl, hm]
  exact (JsNum.eqJ_iff _ _).mpr hmval.symm


theorem pipeline_perfect_nil_of_ascii {ext : ExtFns} {lib : Nat → List Token}
    {st : ServerState} {q : List Nat} {opts : SearchOpts}
    (hq : isAscii q = true) :
    (pipelineCombined ext lib st q opts).filter (filterPerfectMatch true) = [] := by
  rw [List.filter_eq_nil_iff]
  intro r hr
  obtain ⟨e, he, hm2, _, _, _, _, _⟩ := combined_entry_src hr
  rw [ngramStage_ascii hq] at he
  obtain ⟨hnone, _⟩ := scoredStage_entry he
  unfold filterPerfectMatch
  rw [if_pos rfl, hm2, hnone]
  simp

theorem policy_eq_perfect {ext : ExtFns} {lib : Nat → List Token}
    {st : ServerState} {q : List Nat} {opts : SearchOpts}
    (hfz : opts.enableFuzzySearch = false)
    (hpm : opts.onlyKeepPerfectMatch = true) :
    policyStage opts (pipelineCombined ext lib st q opts) =
      (pipelineCombined ext lib st q opts).filter (filterPerfectMatch true) := by
  unfold policyStage
  rw [hpm]
  by_cases hq : isAscii q = true
  · rw [pipeline_perfect_nil_of_ascii hq]
    simp
  · have hqf : isAscii q = false := by
      cases h : isAscii q
      · rfl
      · exact absurd h hq
    have h1 : ((pipelineCombined ext lib st q opts).filter
        (filterPerfectMatch true)).filter
          (filterSmallMatch opts.truncateSmallMatches
            (pipelineCombined ext lib st q opts)) =
        (pipelineCombined ext lib st q opts).filter (filterPerfectMatch true) := by
      apply List.filter_eq_self.mpr
      intro r hrmem
      rw [List.mem_filter] at hrmem
      cases htsm : opts.truncateSmallMatches with
      | false => rfl
      | true => exact perfect_smallMatch hqf hrmem.1 hrmem.2
    rw [h1]
    apply List.filter_eq_self.mpr
    intro r hrmem
    rw [List.mem_filter] at hrmem
    cases htss : opts.truncateSmallScore with
    | false => rfl
    | true => exact perfect_smallScore hqf hfz hrmem.1 hrmem.2

theorem pipeline_length_le (ext : ExtFns) (lib : Nat → List Token)
    (st : ServerState) (q : List Nat) (opts : SearchOpts) :
    (pipelineCombined ext lib st q opts).length ≤ st.docs.length := by
  unfold pipelineCombined combinedStage
  have h1 := List.length_filter_le (fun o : RankedEntry => o.measure.truthy)
    ((fuzzyZeroStage opts.enableFuzzySearch
      (geoStage ext opts.geofence (ngramStage ext lib st q opts.persistOrder))).map toRanked)
  rw [List.length_map] at h1
  have h2 : (fuzzyZeroStage opts.enableFuzzySearch
      (geoStage ext opts.geofence (ngramStage ext lib st q opts.persistOrder))).length ≤
      (ngramStage ext lib st q opts.persistOrder).length := by
    have hfz : ∀ l : List SearchEntry, (fuzzyZeroStage opts.enableFuzzySearch l).length =
        l.length := by
      intro l
      unfold fuzzyZeroStage
      cases opts.enableFuzzySearch
      · rw [if_neg (show ¬(false = true) by decide), List.length_map]
      · rw [if_pos rfl]
    rw [hfz]
    unfold geoStage
    exact le_trans (List.length_filter_le _ _) (List.length_filter_le _ _)
  have h3 : (ngramStage ext lib st q opts.persistOrder).length = st.docs.length := by
    unfold ngramStage
    by_cases hq : isAscii q = true
    · rw [if_pos hq]
      unfold scoredStage
      rw [List.length_map]
    · rw [if_neg hq, List.length_map]
      unfold scoredStage
      rw [List.length_map]
  omega

/-! Construction of the perfect-match entry for a stored document searched by
its own emoji sequence. -/

theorem subsetsOf_false (q : List Nat) : subsetsOf q false = querySplitted q := by
  unfold subsetsOf
  rw [if_neg (show ¬(false = true) by decide)]

theorem exact_query_all_matched (q : List Nat) :
    ∀ s ∈ subsetsOf q false,
      jsIncludes (stripVariationSelectors q) (stripVariationSelectors s) = true := by
  intro s hs
  rw [subsetsOf_false] at hs
  obtain ⟨u, v, huv⟩ := mem_querySplitted_segment hs
  rw [huv]
  unfold stripVariationSelectors
  rw [List.filter_append, List.filter_append]
  exact jsIncludes_append _ _ _

theorem scoredStage_eq_map (ext : ExtFns) (lib : Nat → List Token)
    (st : ServerState) (q : List Nat) :
    scoredStage ext lib st q = st.docs.map (scoredEntryOf ext lib st q) := rfl

theorem jsTake50_of_le (l : List RankedEntry) (h : l.length ≤ 50) :
    jsTake (JsNum.ofInt 50) l = l := by
  unfold jsTake
  rw [show (((JsNum.ofInt 50).num.tdiv (JsNum.ofInt 50).den).toNat) = 50 by decide]
  exact List.take_of_length_le h

theorem mem_pipeline_perfect_of_doc (ext : ExtFns) (lib : Nat → List Token)
    (st : ServerState) {d : StoredDoc} (hd : d ∈ st.docs)
    (hemoji : isAscii d.emoji = false) :
    ∃ r ∈ pipelineCombined ext lib st d.emoji defaultSearchOpts,
      r.meta = d.meta ∧ r.emoji = d.emoji ∧ filterPerfectMatch true r = true ∧
        Option.map JsNum.toRat r.measure2 = some 1 := by
  have hqne : d.emoji ≠ [] := nonAscii_ne_nil hemoji
  have hsc : ((scanSubsets (stripVariationSelectors d.emoji)
      (subsetsOf d.emoji false)).1.div
        (subsetLengthSum (subsetsOf d.emoji false))).toRat = 1 :=
    (measure2_eq_one_iff_all d.emoji false (stripVariationSelectors d.emoji) hqne).mpr
      (exact_query_all_matched d.emoji)
  have h0 : scoredEntryOf ext lib st d.emoji d ∈ scoredStage ext lib st d.emoji := by
    rw [scoredStage_eq_map]
    exact List.mem_map.mpr ⟨d, hd, rfl⟩
  have he1 : annotateEntry (subsetsOf d.emoji false)
      (subsetLengthSum (subsetsOf d.emoji false)) (scoredEntryOf ext lib st d.emoji d) ∈
        ngramStage ext lib st d.emoji false := by
    unfold ngramStage
    rw [if_neg (by rw [hemoji]; decide)]
    exact List.mem_map.mpr ⟨scoredEntryOf ext lib st d.emoji d, h0, rfl⟩
  have he2 : (⟨d.meta, d.emoji, JsNum.ofInt 0,
      (annotateEntry (subsetsOf d.emoji false)
        (subsetLengthSum (subsetsOf d.emoji false))
          (scoredEntryOf ext lib st d.emoji d)).measure2,
      (annotateEntry (subsetsOf d.emoji false)
        (subsetLengthSum (subsetsOf d.emoji false))
          (scoredEntryOf ext lib st d.emoji d)).matchList⟩ : SearchEntry) ∈
      fuzzyZeroStage false (geoStage ext none (ngramStage ext lib st d.emoji false)) := by
    unfold fuzzyZeroStage
    rw [if_neg (show ¬(false = true) by decide), geoStage_none]
    exact List.mem_map.mpr ⟨_, he1, rfl⟩
  refine ⟨toRanked ⟨d.meta, d.emoji, JsNum.ofInt 0,
      (annotateEntry (subsetsOf d.emoji false)
        (subsetLengthSum (subsetsOf d.emoji false))
          (scoredEntryOf ext lib st d.emoji d)).measure2,
      (annotateEntry (subsetsOf d.emoji false)
        (subsetLengthSum (subsetsOf d.emoji false))
          (scoredEntryOf ext lib st d.emoji d)).matchList⟩, ?_, rfl, rfl, ?_, ?_⟩
  · show _ ∈ combinedStage (fuzzyZeroStage false
      (geoStage ext none (ngramStage ext lib st d.emoji false)))
    unfold combinedStage
    refine List.mem_filter.mpr ⟨List.mem_map.mpr ⟨_, he2, rfl⟩, ?_⟩
    rw [JsNum.truthy_iff]
    show (((JsNum.ofInt 0).add (jsOr0 (some ((scanSubsets
      (stripVariationSelectors d.emoji) (subsetsOf d.emoji false)).1.div
        (subsetLengthSum (subsetsOf d.emoji false)))))).toRat) ≠ 0
    rw [JsNum.toRat_add, JsNum.toRat_ofInt]
    show (0 : ℚ) + ((scanSubsets (stripVariationSelectors d.emoji)
      (subsetsOf d.emoji false)).1.div (subsetLengthSum (subsetsOf d.emoji false))).toRat ≠ 0
    rw [hsc]
    norm_num
  · unfold filterPerfectMatch
    rw [if_pos rfl]
    show ((scanSubsets (stripVariationSelectors d.emoji)
      (subsetsOf d.emoji false)).1.div
        (subsetLengthSum (subsetsOf d.emoji false))).eqJ (JsNum.ofInt 1) = true
    rw [JsNum.eqJ_iff, JsNum.toRat_ofInt, hsc]
    norm_num
  · show Option.map JsNum.toRat (some ((scanSubsets
      (stripVariationSelectors d.emoji) (subsetsOf d.emoji false)).1.div
        (subsetLengthSum (subsetsOf d.emoji false)))) = some 1
    rw [Option.map_some', hsc]

/-! Main theorems for the claims about the search pipeline. -/

/-- C1 (amended): for every stored document whose emoji sequence is classified
as emoji (non-ASCII), a search for exactly that emoji sequence with default
options returns an entry carrying the document's metadata and emoji sequence
with measure2 = 1 — provided the index holds at most `limit` (50) documents;
the counterexample shows the claim fails without that proviso because tied
perfect matches beyond the limit are truncated away. -/
theorem perfect_search_contains_document (ext : ExtFns) (lib : Nat → List Token)
    (st : ServerState) (d : StoredDoc) (hd : d ∈ st.docs)
    (hemoji : isAscii d.emoji = false) (hsize : st.docs.length ≤ 50) :
    ∃ r ∈ runSearch ext lib st d.emoji defaultSearchOpts,
      r.meta = d.meta ∧ r.emoji = d.emoji ∧
        Option.map JsNum.toRat r.measure2 = some 1 := by
  obtain ⟨r, hrp, hmeta, hemo, hperf, hm2⟩ :=
    mem_pipeline_perfect_of_doc ext lib st hd hemoji
  rw [runSearch_eq_pipeline, policy_eq_perfect rfl rfl]
  have hlen : ((sortByAsc measureLE
      ((pipelineCombined ext lib st d.emoji defaultSearchOpts).filter
        (filterPerfectMatch true))).reverse).length ≤ 50 := by
    rw [List.length_reverse, length_sortByAsc]
    have h1 := List.length_filter_le (filterPerfectMatch true)
      (pipelineCombined ext lib st d.emoji defaultSearchOpts)
    have h2 := pipeline_length_le ext lib st d.emoji defaultSearchOpts
    omega
  refine ⟨r, ?_, hmeta, hemo, hm2⟩
  show r ∈ jsTake (JsNum.ofInt 50) _
  rw [jsTake50_of_le _ hlen]
  exact List.mem_reverse.mpr
    ((mem_sortByAsc _ _ _).mpr (List.mem_filter.mpr ⟨hrp, hperf⟩))

/-- C2 (amended): the three result filters are applied sequentially, each
gated only by its own flag, not as an if / else-if chain.  When
`onlyKeepPerfectMatch` is true and `enableFuzzySearch` is false the two
truncation flags cannot change the result (every surviving entry attains both
maxima); with fuzzy search enabled `truncateSmallScore` can remove perfect
matches, as the counterexample shows. -/
theorem search_independent_of_truncation_flags (ext : ExtFns)
    (lib : Nat → List Token) (st : ServerState) (q : List Nat)
    (o1 o2 : SearchOpts) (hl : o1.limit = o2.limit)
    (hg : o1.geofence = o2.geofence) (hf : o1.enableFuzzySearch = false)
    (hf2 : o2.enableFuzzySearch = false) (hp : o1.persistOrder = o2.persistOrder)
    (hk : o1.onlyKeepPerfectMatch = true) (hk2 : o2.onlyKeepPerfectMatch = true) :
    runSearch ext lib st q o1 = runSearch ext lib st q o2 := by
  rw [runSearch_eq_pipeline, runSearch_eq_pipeline,
    policy_eq_perfect hf hk, policy_eq_perfect hf2 hk2]
  have hpipe : pipelineCombined ext lib st q o1 = pipelineCombined ext lib st q o2 := by
    unfold pipelineCombined
    rw [hf, hf2, hg, hp]
  rw [hpipe, hl]

set_option maxRecDepth 10000 in
example : (runSearch extDefault libA st51 [128512] defaultSearchOpts).length = 50 := by decide

/-! Entries whose combined measure is zero are dropped entirely. -/

theorem JsNum.div_num_zero (a b : JsNum) (h : a.num = 0) : (a.div b).num = 0 := by
  unfold JsNum.div
  split
  · simp [h]
  · split
    · simp [h]
    · rfl

theorem JsNum.add_num_zero (a b : JsNum) (ha : a.num = 0) (hb : b.num = 0) :
    (a.add b).num = 0 := by
  unfold JsNum.add
  simp [ha, hb]

theorem sumJs_num_zero (l : List JsNum) (h : ∀ x ∈ l, x.num = 0) :
    (sumJs l).num = 0 := by
  unfold sumJs
  have aux : ∀ (l : List JsNum) (acc : JsNum), (∀ x ∈ l, x.num = 0) → acc.num = 0 →
      (l.foldl JsNum.add acc).num = 0 := by
    intro l
    induction l with
    | nil => intro acc _ hacc; exact hacc
    | cons x xs ih =>
      intro acc hl hacc
      simp only [List.foldl_cons]
      exact ih _ (fun y hy => hl y (List.mem_cons_of_mem x hy))
        (JsNum.add_num_zero _ _ hacc (hl x (List.mem_cons_self x xs)))
  exact aux l _ h rfl

theorem runSearch_nil_of_all_zero (ext : ExtFns) (lib : Nat → List Token)
    (st : ServerState) (q : List Nat) (opts : SearchOpts)
    (h : ∀ e ∈ fuzzyZeroStage opts.enableFuzzySearch
        (geoStage ext opts.geofence (ngramStage ext lib st q opts.persistOrder)),
      e.measure1.num = 0 ∧ e.measure2 = none) :
    runSearch ext lib st q opts = [] := by
  rw [runSearch_eq_pipeline]
  have hnil : pipelineCombined ext lib st q opts = [] := by
    unfold pipelineCombined combinedStage
    rw [List.filter_eq_nil_iff]
    intro r hr
    rw [List.mem_map] at hr
    obtain ⟨e, he, rfl⟩ := hr
    obtain ⟨h1, h2⟩ := h e he
    have hm : (toRanked e).measure.num = 0 := by
      show (e.measure1.add (jsOr0 e.measure2)).num = 0
      exact JsNum.add_num_zero _ _ h1 (by rw [h2]; rfl)
    unfold JsNum.truthy
    simp [hm]
  rw [hnil]
  unfold policyStage
  simp only [List.filter_nil]
  show jsTake opts.limit (sortByAsc measureLE []).reverse = []
  unfold sortByAsc jsTake
  simp

theorem queryTerms_nil (lib : Nat → List Token) : queryTerms lib [] = [] := rfl

theorem emptyQuery_entries_zero (ext : ExtFns) (lib : Nat → List Token)
    (st : ServerState) (opts : SearchOpts) :
    ∀ e ∈ fuzzyZeroStage opts.enableFuzzySearch
        (geoStage ext opts.geofence (ngramStage ext lib st ([] : List Nat) opts.persistOrder)),
      e.measure1.num = 0 ∧ e.measure2 = none := by
  have hascii : isAscii ([] : List Nat) = true := rfl
  have hscored : ∀ e ∈ scoredStage ext lib st ([] : List Nat),
      e.measure1.num = 0 ∧ e.measure2 = none := by
    intro e he
    unfold scoredStage at he
    rw [List.mem_map] at he
    obtain ⟨d, _, rfl⟩ := he
    refine ⟨?_, rfl⟩
    show ((rawMeasure ext st.docs (queryTerms lib []) d).div
      (measure1Sum ext st.docs (queryTerms lib []))).num = 0
    apply JsNum.div_num_zero
    rw [queryTerms_nil]
    rfl
  intro e he
  unfold fuzzyZeroStage at he
  cases hfz : opts.enableFuzzySearch with
  | false =>
    rw [hfz, if_neg (show ¬(false = true) by decide), List.mem_map] at he
    obtain ⟨e2, he2, rfl⟩ := he
    have := hscored e2 (by rw [← ngramStage_ascii hascii]; exact geoStage_sub he2)
    exact ⟨rfl, this.2⟩
  | true =>
    rw [hfz, if_pos rfl] at he
    exact hscored e (by rw [← ngramStage_ascii hascii]; exact geoStage_sub he)

theorem ascii_default_entries_zero (ext : ExtFns) (lib : Nat → List Token)
    (st : ServerState) (q : List Nat) (hq : isAscii q = true) :
    ∀ e ∈ fuzzyZeroStage defaultSearchOpts.enableFuzzySearch
        (geoStage ext defaultSearchOpts.geofence
          (ngramStage ext lib st q defaultSearchOpts.persistOrder)),
      e.measure1.num = 0 ∧ e.measure2 = none := by
  intro e he
  have he' : e ∈ fuzzyZeroStage false
      (geoStage ext none (ngramStage ext lib st q false)) := he
  unfold fuzzyZeroStage at he'
  rw [if_neg (show ¬(false = true) by decide), List.mem_map] at he'
  obtain ⟨e2, he2, rfl⟩ := he'
  have := scoredStage_entry (by rw [← ngramStage_ascii hq]; exact geoStage_sub he2)
  exact ⟨rfl, this.1⟩

/-! Ordering facts for the final sort. -/

theorem measureLE_trans (a b c : RankedEntry) (hab : measureLE a b = true)
    (hbc : measureLE b c = true) : measureLE a c = true := by
  unfold measureLE at hab hbc ⊢
  rw [JsNum.leJ_iff] at hab hbc ⊢
  exact le_trans hab hbc

theorem measureLE_total (a b : RankedEntry) :
    measureLE a b = true ∨ measureLE b a = true := by
  unfold measureLE
  rw [JsNum.leJ_iff, JsNum.leJ_iff]
  exact le_total _ _

theorem runSearch_sorted (ext : ExtFns) (lib : Nat → List Token)
    (st : ServerState) (q : List Nat) (opts : SearchOpts) :
    (runSearch ext lib st q opts).Pairwise
      (fun a b => b.measure.toRat ≤ a.measure.toRat) := by
  rw [runSearch_eq_pipeline]
  have hsorted := sortByAsc_sorted measureLE measureLE_trans measureLE_total
    (policyStage opts (pipelineCombined ext lib st q opts))
  have hrev : ((sortByAsc measureLE
      (policyStage opts (pipelineCombined ext lib st q opts))).reverse).Pairwise
        (fun a b => b.measure.toRat ≤ a.measure.toRat) := by
    rw [List.pairwise_reverse]
    exact hsorted.imp fun h => (JsNum.leJ_iff _ _).mp h
  unfold jsTake
  exact hrev.sublist (List.take_sublist _ _)

theorem runSearch_length_le (ext : ExtFns) (lib : Nat → List Token)
    (st : ServerState) (q : List Nat) (opts : SearchOpts) :
    (runSearch ext lib st q opts).length ≤
      (opts.limit.num.tdiv opts.limit.den).toNat := by
  rw [runSearch_eq_pipeline]
  unfold jsTake
  rw [List.length_take]
  omega

/-! Normalization of measure1. -/

theorem sum_map_div (l : List ℚ) (c : ℚ) :
    (l.map fun x => x / c).sum = l.sum / c := by
  induction l with
  | nil => simp
  | cons x xs ih => simp [List.sum_cons, add_div, ih]

theorem sum_map_one {α : Type} (l : List α) :
    (l.map fun _ => (1 : ℚ)).sum = (l.length : ℚ) := by
  induction l with
  | nil => simp
  | cons x xs ih =>
    simp [ih]
    ring

/-- C5 (amended): whenever the sum of the raw tf-idf scores is nonzero, the
normalized measure1 values summed over the entire scored result set (before
geo filtering, combination and the policy filters) equal 1.  The returned
subset may sum to less, because filters run after normalization — see the
counterexample. -/
theorem measure1_normalized_sum (ext : ExtFns) (lib : Nat → List Token)
    (st : ServerState) (q : List Nat)
    (h : (measure1Sum ext st.docs (queryTerms lib q)).toRat ≠ 0) :
    ((scoredStage ext lib st q).map fun e => e.measure1.toRat).sum = 1 := by
  have hnum : (measure1Sum ext st.docs (queryTerms lib q)).num ≠ 0 := fun h0 =>
    h ((JsNum.num_eq_zero_iff _).mp h0)
  unfold scoredStage
  rw [List.map_map]
  show (st.docs.map fun d => ((rawMeasure ext st.docs (queryTerms lib q) d).div
    (measure1Sum ext st.docs (queryTerms lib q))).toRat).sum = 1
  rw [show st.docs.map (fun d => ((rawMeasure ext st.docs (queryTerms lib q) d).div
        (measure1Sum ext st.docs (queryTerms lib q))).toRat) =
      st.docs.map (fun d => (rawMeasure ext st.docs (queryTerms lib q) d).toRat /
        (measure1Sum ext st.docs (queryTerms lib q)).toRat) from
    List.map_congr_left fun d _ => JsNum.toRat_div _ _ hnum]
  have hsplit : (st.docs.map fun d =>
      (rawMeasure ext st.docs (queryTerms lib q) d).toRat).map
        (fun x => x / (measure1Sum ext st.docs (queryTerms lib q)).toRat) =
      st.docs.map (fun d => (rawMeasure ext st.docs (queryTerms lib q) d).toRat /
        (measure1Sum ext st.docs (queryTerms lib q)).toRat) := by
    rw [List.map_map]
    rfl
  rw [← hsplit, sum_map_div]
  rw [show (st.docs.map fun d =>
      (rawMeasure ext st.docs (queryTerms lib q) d).toRat).sum =
    (measure1Sum ext st.docs (queryTerms lib q)).toRat by
      unfold measure1Sum
      rw [sumJs_toRat, List.map_map]
      rfl]
  exact div_self h

/-! The geofence filters and validation. -/

/-- C9: a document whose metadata lacks a `geolocation` property passes both
geofence filters for every geofence, and with no geofence supplied the geo
stage passes every document unchanged. -/
theorem geo_no_geolocation_passes (ext : ExtFns) :
    (∀ (gf : Option GeofenceObj) (e : SearchEntry),
      hasMetaGeolocation e.meta = false →
        filterIsPointInside ext gf e = true ∧ filterIsPointInCircle ext gf e = true) ∧
      ∀ l : List SearchEntry, geoStage ext none l = l := by
  refine ⟨?_, geoStage_none ext⟩
  intro gf e h
  constructor
  · unfold filterIsPointInside
    cases gf with
    | none => rfl
    | some g =>
      show (if g.radius.isSome = true then true
        else !hasMetaGeolocation e.meta ||
          ext.pointInside (geolocationOf e.meta) (boxCorners g)) = true
      by_cases hr : g.radius.isSome
      · rw [if_pos hr]
      · rw [if_neg hr, h]
        rfl
  · unfold filterIsPointInCircle
    cases gf with
    | none => rfl
    | some g =>
      show (if g.radius.isSome = true then
        !hasMetaGeolocation e.meta ||
          ext.pointInCircle (geolocationOf e.meta) g g.radius
        else true) = true
      by_cases hr : g.radius.isSome
      · rw [if_pos hr, h]
        rfl
      · rw [if_neg hr]

theorem jsTake_neg (limit : JsNum) (h : limit.num < 0) (l : List RankedEntry) :
    jsTake limit l = [] := by
  unfold jsTake
  have h2 : (0 : Int) ≤ (-limit.num).tdiv limit.den :=
    Int.tdiv_nonneg (by omega) (le_of_lt limit.den_pos)
  have h3 : (-limit.num).tdiv limit.den = -(limit.num.tdiv limit.den) :=
    Int.neg_tdiv _ _
  have h1 : limit.num.tdiv limit.den ≤ 0 := by omega
  rw [Int.toNat_of_nonpos h1]
  exact List.take_zero l

/-! Closed form of measure2 without `persistOrder`, and the endpoint guards. -/

/-- C6 (amended): with `persistOrder = false`, for a query made of plain astral
symbol characters (no variation selectors, regional indicators, fitzpatrick
modifiers, combining marks or joiners), the subset list used for measure2 is
the LIST of the query's characters — duplicates retained, not a set — and the
n-gram match total counts, with multiplicity, the query characters whose
stripped form occurs in the stripped target, over a divisor equal to the query
length. For other queries the unicode-aware split groups selectors, modifiers
and join sequences with the preceding symbol — see the counterexample. -/
theorem subsets_raw_formula (q : List Nat) (e : SearchEntry)
    (hq : ∀ c ∈ q, isPlainSymbolChar c = true) :
    subsetsOf q false = (q.map fun c => [c]) ∧
      (scanSubsets (stripVariationSelectors e.emoji) (subsetsOf q false)).1.toRat =
        ((q.countP fun c => jsIncludes (stripVariationSelectors e.emoji)
          (stripVariationSelectors [c])) : ℚ) ∧
      (subsetLengthSum (subsetsOf q false)).toRat = (q.length : ℚ) := by
  have hone : ∀ (l : List Nat),
      (l.map ((fun s : List Nat => (jsSize s : ℚ)) ∘ fun c => [c])).sum =
        (l.length : ℚ) := by
    intro l
    rw [show (l.map ((fun s : List Nat => (jsSize s : ℚ)) ∘ fun c => [c])) =
        l.map (fun _ => (1 : ℚ)) from
      List.map_congr_left fun c _ => by simp [Function.comp, jsSize_single],
      sum_map_one]
  have hsub : subsetsOf q false = q.map fun c => [c] := by
    rw [subsetsOf_false]
    exact querySplitted_plain hq
  refine ⟨hsub, ?_, ?_⟩
  · rw [scanSubsets_sum, hsub, List.filter_map, List.map_map, hone,
      List.countP_eq_length_filter]
    rfl
  · rw [subsetLengthSum_toRat, hsub, List.map_map, hone]

/-- C7 (amended): document submission fails (status 400), with the state
unchanged, exactly when the emoji field is missing or the metadata's
geolocation is malformed (missing latitude or longitude, or extra fields).
An empty emoji string is accepted — see the counterexample. -/
theorem documentPost_validation (b : DocumentBody) :
    (documentPostValidate b = false ↔
      (b.emoji = none ∨ ∃ g : GeoObj, b.meta = MetaField.obj (GeoField.val g) ∧
        (g.latitude = none ∨ g.longitude = none ∨ g.hasExtra = true))) ∧
    ∀ (lib : Nat → List Token) (st : ServerState) (k : Nat),
      documentPostValidate b = false → postDocuments lib st b k = (st, 400) := by
  constructor
  · rcases b with ⟨emoji, meta⟩
    cases emoji with
    | none => simp [documentPostValidate]
    | some e =>
      cases meta with
      | absent => simp [documentPostValidate]
      | null => simp [documentPostValidate]
      | obj gf =>
        cases gf with
        | absent => simp [documentPostValidate]
        | null => simp [documentPostValidate]
        | val go =>
          rcases go with ⟨lat, lon, ex⟩
          cases lat with
          | none => simp [documentPostValidate]
          | some lv =>
            cases lon with
            | none => simp [documentPostValidate]
            | some ov =>
              cases ex with
              | false => simp [documentPostValidate]
              | true => simp [documentPostValidate]
  · intro lib st k h
    unfold postDocuments
    rw [if_neg (by rw [h]; exact (show ¬(false = true) by decide))]

/-- C8 (amended): a geofence whose parsed object matches neither schema shape
is rejected with a validation error before any scoring; a negative limit,
however, passes validation and the search runs and returns the empty list
(`take` of a negative count). -/
theorem search_validation_behaviour (ext : ExtFns) (lib : Nat → List Token)
    (st : ServerState) (p : SearchParams) (q : List Nat) :
    (∀ g, p.geofence = some g → validGeofence g = false →
      getSearch ext lib st p q = SearchResult.badRequest) ∧
    ∀ n, p.limit = some n → n.num < 0 → searchValidate p = true →
      getSearch ext lib st p q = SearchResult.ok [] := by
  constructor
  · intro g hg hbad
    unfold getSearch
    rw [if_neg]
    intro hval
    unfold searchValidate at hval
    rw [hg] at hval
    have hval2 : validGeofence g = true := hval
    rw [hbad] at hval2
    exact absurd hval2 (show ¬(false = true) by decide)
  · intro n hn hneg hval
    unfold getSearch
    rw [if_pos hval]
    have hlim : (optsOfParams p).limit = n := by
      unfold optsOfParams
      rw [hn]
      rfl
    rw [runSearch_eq_pipeline]
    rw [hlim, jsTake_neg n hneg]

/-- C10: for every all-ASCII query under default options the search result is
empty regardless of the index contents: measure2 is computed only for emoji
queries, measure1 is zeroed without fuzzy search, and zero combined measures
are dropped (the perfect-match filter would likewise reject the absent
measure2). -/
theorem ascii_query_default_empty (ext : ExtFns) (lib : Nat → List Token)
    (st : ServerState) (q : List Nat) (hq : isAscii q = true) :
    runSearch ext lib st q defaultSearchOpts = [] :=
  runSearch_nil_of_all_zero ext lib st q defaultSearchOpts
    (ascii_default_entries_zero ext lib st q hq)

/-- C4: for an empty query the whole search returns the empty list, the n-gram
block is skipped (`measure2` stays absent and contributes 0 to the combined
measure), and for every query that does reach the n-gram block (non-ASCII) the
`subsetLengthSum` divisor is nonzero, so the division never divides by zero. -/
theorem empty_query_measure2_guard (ext : ExtFns) (lib : Nat → List Token)
    (st : ServerState) (opts : SearchOpts) :
    runSearch ext lib st [] opts = [] ∧
    (∀ e ∈ ngramStage ext lib st ([] : List Nat) opts.persistOrder,
      e.measure2 = none ∧ jsOr0 e.measure2 = JsNum.ofInt 0) ∧
    ∀ q : List Nat, isAscii q = false →
      (subsetLengthSum (subsetsOf q opts.persistOrder)).toRat ≠ 0 := by
  refine ⟨runSearch_nil_of_all_zero _ _ _ _ _
    (emptyQuery_entries_zero ext lib st opts), ?_, ?_⟩
  · intro e he
    rw [ngramStage_ascii (show isAscii ([] : List Nat) = true from rfl)] at he
    have h := (scoredStage_entry he).1
    exact ⟨h, by rw [h]; rfl⟩
  · intro q hq
    exact (subsetLengthSum_pos opts.persistOrder (nonAscii_ne_nil hq)).ne'

/-- C3: every search output is sorted by combined measure in descending order
and never holds more than `limit` entries. -/
theorem runSearch_sorted_and_truncated (ext : ExtFns) (lib : Nat → List Token)
    (st : ServerState) (q : List Nat) (opts : SearchOpts) :
    (runSearch ext lib st q opts).Pairwise
        (fun a b => b.measure.toRat ≤ a.measure.toRat) ∧
      (runSearch ext lib st q opts).length ≤
        (opts.limit.num.tdiv opts.limit.den).toNat :=
  ⟨runSearch_sorted ext lib st q opts, runSearch_length_le ext lib st q opts⟩

/-! Counterexamples. -/

set_option maxRecDepth 10000 in
/-- C1 counterexample: 51 documents all equal to the emoji U+1F600 (each a
perfect match of the query U+1F600 with measure 1); with the default limit of
50, `take` drops one tied entry — the first-inserted document (latitude 0) is
absent from the result even though it satisfies every condition of the claim. -/
theorem C1_limit_counterexample :
    ((⟨0, [128512], metaLat 0, [[115]]⟩ : StoredDoc) ∈ st51.docs ∧
      isAscii [128512] = false) ∧
    (runSearch extDefault libA st51 [128512] defaultSearchOpts).length = 50 ∧
    (runSearch extDefault libA st51 [128512] defaultSearchOpts).all
      (fun r => decide (r.meta ≠ metaLat 0)) = true :=
  ⟨⟨by decide, by decide⟩, by decide, by decide⟩

/-- C2 counterexample: with `onlyKeepPerfectMatch = true` and
`enableFuzzySearch = true`, turning `truncateSmallScore` on changes the result
(the perfect match with the lower tf-idf share is removed), so the filters are
not an if / else-if chain. -/
theorem C2_policy_counterexample :
    (runSearch extDefault libA stC2 [128512] optsFuzzyTss).length = 1 ∧
    (runSearch extDefault libA stC2 [128512] optsFuzzy).length = 2 :=
  ⟨by decide, by decide⟩

/-- C3 counterexample: two documents with equal combined measure 1 are returned
in reverse encounter order (`sortBy` is stable ascending, then the list is
reversed), contradicting "ties keep encounter order". -/
theorem C3_tie_counterexample :
    (stC3.docs.map fun d => d.meta) =
      [MetaField.null, MetaField.obj GeoField.absent] ∧
    ((runSearch extDefault libA stC3 [128512] defaultSearchOpts).map
      fun r => r.meta) = [MetaField.obj GeoField.absent, MetaField.null] ∧
    ((runSearch extDefault libA stC3 [128512] defaultSearchOpts).map
      fun r => r.measure.eqJ (JsNum.ofInt 1)) = [true, true] :=
  ⟨by decide, by decide, by decide⟩

/-- C5 counterexample: with fuzzy search on, a document with measure1 share 1/2
is removed by the perfect-match filter, so the returned (non-empty) result's
measure1 values sum to 1/2, not 1. -/
theorem C5_returned_sum_counterexample :
    (runSearch extDefault libA stC5 [128512] optsFuzzy).length = 1 ∧
    (sumJs ((runSearch extDefault libA stC5 [128512] optsFuzzy).map
      fun r => r.measure1)).toRat = 1 / 2 ∧
    ¬(sumJs ((runSearch extDefault libA stC5 [128512] optsFuzzy).map
      fun r => r.measure1)).toRat = 1 := by
  have h : (sumJs ((runSearch extDefault libA stC5 [128512] optsFuzzy).map
      fun r => r.measure1)).eqJ ((JsNum.ofInt 1).div (JsNum.ofInt 2)) = true := by
    decide
  have hval := (JsNum.eqJ_iff _ _).mp h
  have hhalf : ((JsNum.ofInt 1).div (JsNum.ofInt 2)).toRat = 1 / 2 := by
    rw [JsNum.toRat_div _ _ (by decide), JsNum.toRat_ofInt, JsNum.toRat_ofInt]
    norm_num
  refine ⟨by decide, ?_, ?_⟩
  · rw [hval, hhalf]
  · rw [hval, hhalf]
    norm_num

/-- C6 counterexample: for the query 😀😀😎 (three plain astral characters with
a duplicate) the code keeps the duplicate — the subset list is the raw
character LIST, not the SET of canonical characters — and against a target
containing only 😀 the code computes measure2 = 2/3 while the
set-of-canonical-characters reading yields 1/2; moreover for the query 😀
followed by the variation selector U+FE0F the unicode-aware split attaches the
selector to the emoji, producing the single subset [U+1F600, U+FE0F] of
unicode size 1 rather than one subset per canonical character. -/
theorem C6_duplicate_counterexample :
    subsetsOf [128512, 128512, 128526] false =
        [[128512], [128512], [128526]] ∧
    subsetsOf [128512, 128512, 128526] false ≠
        canonicalCharSubsets [128512, 128512, 128526] ∧
    ((scanSubsets (stripVariationSelectors [128512])
        (subsetsOf [128512, 128512, 128526] false)).1.div
      (subsetLengthSum (subsetsOf [128512, 128512, 128526] false))).eqJ
        ((JsNum.ofInt 2).div (JsNum.ofInt 3)) = true ∧
    ((scanSubsets (stripVariationSelectors [128512])
        (canonicalCharSubsets [128512, 128512, 128526])).1.div
      (subsetLengthSum (canonicalCharSubsets [128512, 128512, 128526]))).eqJ
        ((JsNum.ofInt 1).div (JsNum.ofInt 2)) = true ∧
    ¬((JsNum.ofInt 1).div (JsNum.ofInt 2)).eqJ
        ((JsNum.ofInt 2).div (JsNum.ofInt 3)) = true ∧
    subsetsOf [128512, 65039] false = [[128512, 65039]] ∧
    jsSize [128512, 65039] = 1 := by
  decide

/-- C7 counterexample: a body with an empty emoji string passes validation and
is inserted (status 201, index mutated), so an empty emoji sequence is not
rejected. -/
theorem C7_empty_emoji_counterexample :
    documentPostValidate ⟨some [], MetaField.null⟩ = true ∧
    postDocuments libA ⟨[]⟩ ⟨some [], MetaField.null⟩ 0 =
      (⟨[⟨0, [], MetaField.null, []⟩]⟩, 201) :=
  ⟨by decide, by decide⟩

/-- C8 counterexample: a request with limit -1 passes validation (the schema
only checks the type), the handler runs the search and answers 200 with an
empty list, while the same index and query return a result under the default
limit — so a negative limit is not rejected with a validation error. -/
theorem C8_negative_limit_counterexample :
    searchValidate paramsNegLimit = true ∧
    getSearch extDefault libA stOne paramsNegLimit [128512] =
      SearchResult.ok [] ∧
    runSearch extDefault libA stOne [128512] defaultSearchOpts ≠ [] :=
  ⟨by decide, by decide, by decide⟩

/-! Witnesses. -/

theorem C1_witness :
    ((⟨0, [128512], MetaField.null, [[115]]⟩ : StoredDoc) ∈ stOne.docs ∧
      isAscii [128512] = false ∧ stOne.docs.length ≤ 50) ∧
    ∃ r ∈ runSearch extDefault libA stOne [128512] defaultSearchOpts,
      r.meta = MetaField.null ∧ r.emoji = [128512] ∧
        Option.map JsNum.toRat r.measure2 = some 1 :=
  ⟨⟨by decide, by decide, by decide⟩,
    perfect_search_contains_document extDefault libA stOne
      ⟨0, [128512], MetaField.null, [[115]]⟩ (by decide) (by decide) (by decide)⟩

theorem C2_witness :
    (defaultSearchOpts.limit = optsFlagsFlipped.limit ∧
      defaultSearchOpts.geofence = optsFlagsFlipped.geofence ∧
      defaultSearchOpts.enableFuzzySearch = false ∧
      optsFlagsFlipped.enableFuzzySearch = false ∧
      defaultSearchOpts.persistOrder = optsFlagsFlipped.persistOrder ∧
      defaultSearchOpts.onlyKeepPerfectMatch = true ∧
      optsFlagsFlipped.onlyKeepPerfectMatch = true) ∧
    runSearch extDefault libA stOne [128512] defaultSearchOpts =
      runSearch extDefault libA stOne [128512] optsFlagsFlipped :=
  ⟨⟨rfl, rfl, rfl, rfl, rfl, rfl, rfl⟩,
    search_independent_of_truncation_flags extDefault libA stOne [128512]
      defaultSearchOpts optsFlagsFlipped rfl rfl rfl rfl rfl rfl rfl⟩

theorem C4_witness :
    runSearch extDefault libA stOne [] defaultSearchOpts = [] ∧
    (entryEmptyQuery ∈
        ngramStage extDefault libA stOne [] defaultSearchOpts.persistOrder ∧
      entryEmptyQuery.measure2 = none) ∧
    (isAscii [128512] = false ∧
      (subsetLengthSum (subsetsOf [128512] defaultSearchOpts.persistOrder)).toRat ≠ 0) :=
  ⟨(empty_query_measure2_guard extDefault libA stOne defaultSearchOpts).1,
    ⟨by decide,
      ((empty_query_measure2_guard extDefault libA stOne defaultSearchOpts).2.1
        entryEmptyQuery (by decide)).1⟩,
    ⟨by decide,
      (empty_query_measure2_guard extDefault libA stOne defaultSearchOpts).2.2
        [128512] (by decide)⟩⟩

theorem C5_witness :
    (measure1Sum extDefault stOne.docs (queryTerms libA [128512])).toRat ≠ 0 ∧
    ((scoredStage extDefault libA stOne [128512]).map
      fun e => e.measure1.toRat).sum = 1 := by
  have h : (measure1Sum extDefault stOne.docs
      (queryTerms libA [128512])).truthy = true := by decide
  have hne := (JsNum.truthy_iff _).mp h
  exact ⟨hne, measure1_normalized_sum extDefault libA stOne [128512] hne⟩

theorem C6_witness :
    (∀ c ∈ ([128512, 128526] : List Nat), isPlainSymbolChar c = true) ∧
    (subsetsOf [128512, 128526] false =
        (([128512, 128526] : List Nat).map fun c => [c]) ∧
      (scanSubsets (stripVariationSelectors entryEmptyQuery.emoji)
          (subsetsOf [128512, 128526] false)).1.toRat =
        ((([128512, 128526] : List Nat).countP fun c =>
          jsIncludes (stripVariationSelectors entryEmptyQuery.emoji)
            (stripVariationSelectors [c])) : ℚ) ∧
      (subsetLengthSum (subsetsOf [128512, 128526] false)).toRat =
        ((([128512, 128526] : List Nat).length : ℚ))) :=
  ⟨by decide,
    subsets_raw_formula [128512, 128526] entryEmptyQuery (by decide)⟩

theorem C7_witness :
    (documentPostValidate bodyBadGeo = false ↔
      (bodyBadGeo.emoji = none ∨ ∃ g : GeoObj,
        bodyBadGeo.meta = MetaField.obj (GeoField.val g) ∧
          (g.latitude = none ∨ g.longitude = none ∨ g.hasExtra = true))) ∧
    (documentPostValidate bodyBadGeo = false ∧
      postDocuments libA stOne bodyBadGeo 7 = (stOne, 400)) :=
  ⟨(documentPost_validation bodyBadGeo).1,
    ⟨by decide, (documentPost_validation bodyBadGeo).2 libA stOne 7 (by decide)⟩⟩

theorem C8_witness :
    (paramsBadFence.geofence = some badFence ∧ validGeofence badFence = false ∧
      getSearch extDefault libA stOne paramsBadFence [128512] =
        SearchResult.badRequest) ∧
    (paramsNegLimit.limit = some (JsNum.ofInt (-1)) ∧
      (JsNum.ofInt (-1)).num < 0 ∧ searchValidate paramsNegLimit = true ∧
      getSearch extDefault libA stOne paramsNegLimit [128512] =
        SearchResult.ok []) :=
  ⟨⟨rfl, by decide,
      (search_validation_behaviour extDefault libA stOne paramsBadFence
        [128512]).1 badFence rfl (by decide)⟩,
    ⟨rfl, by decide, by decide,
      (search_validation_behaviour extDefault libA stOne paramsNegLimit
        [128512]).2 (JsNum.ofInt (-1)) rfl (by decide) (by decide)⟩⟩

theorem C9_witness :
    (hasMetaGeolocation entryNoGeo.meta = false ∧
      filterIsPointInside extReject (some fenceBox) entryNoGeo = true ∧
      filterIsPointInCircle extReject (some fenceBox) entryNoGeo = true) ∧
    geoStage extReject none [entryNoGeo] = [entryNoGeo] :=
  ⟨⟨by decide,
      ((geo_no_geolocation_passes extReject).1 (some fenceBox) entryNoGeo
        (by decide)).1,
      ((geo_no_geolocation_passes extReject).1 (some fenceBox) entryNoGeo
        (by decide)).2⟩,
    (geo_no_geolocation_passes extReject).2 [entryNoGeo]⟩

theorem C10_witness :
    isAscii [97, 98, 99] = true ∧
    runSearch extDefault libA st51 [97, 98, 99] defaultSearchOpts = [] :=
  ⟨by decide,
    ascii_query_default_empty extDefault libA st51 [97, 98, 99] (by decide)⟩
